import Mathlib

/-!
plugin-manager: the CNI plugin chain executor and the CNI configuration watcher.

A shallow embedding of

* `vendor/github.com/rancher/cniglue/cni.go` (namespace `glue`): `NewCNIExec`,
  `CNIExec.Add`, `CNIExec.Del`, `CNIAdd`, `CNIDel`;
* `cniconf/watcher.go` (namespace `cniconf`): `watcher.onChange`, `watcher.apply`.

Everything outside these two files (the plugin binaries behind `libcni`, the
filesystem, the clock, the metadata client) is an environment record of functions
over an arbitrary world state `σ`; each call threads the world and is appended to a
log, so that statements about which operations are invoked, and in which order, are
statements about the returned log.
-/

/-- Go `error` values; a nil error is `none : Option Error`. -/
abbrev Error := String

/-- A format string with exactly one `%s` verb: the text before and after the verb. -/
structure Format where
  before : String
  after : String
deriving DecidableEq

/-- The call `fmt.Sprintf(format, arg)` for a one-verb format. -/
def Sprintf (format : Format) (arg : String) : String :=
  format.before ++ arg ++ format.after

namespace glue

/-- The type `types.IPConfig` of the CNI library, reduced to address and gateway. -/
structure IPConfig where
  IP : String
  Gateway : String
deriving DecidableEq

/-- The type `types.Result` of the CNI library; a nil `IP4` pointer is `none`. -/
structure Result where
  IP4 : Option IPConfig
  IP6 : Option IPConfig
deriving DecidableEq

/-- The type `libcni.NetworkConfig`: a loaded plugin configuration (the name and
the plugin type of its `Network` field, and the raw `Bytes`). -/
structure NetworkConfig where
  Name : String
  PluginType : String
  Bytes : String
deriving DecidableEq

/-- The type `libcni.RuntimeConf`. -/
structure RuntimeConf where
  ContainerID : String
  NetNS : String
  IfName : String
  Args : List (String × String)
deriving DecidableEq

/-- The type `libcni.CNIConfig`. -/
structure CNIConfig where
  Path : List String
deriving DecidableEq

/-- The struct `CNIExec` (cni.go:28). -/
structure CNIExec where
  confs : List NetworkConfig
  runtimeConf : RuntimeConf
  cninet : CNIConfig
deriving DecidableEq

/-- The value `&CNIExec{}`: every field is its zero value. -/
def CNIExec.zero : CNIExec :=
  { confs := [], runtimeConf := ⟨"", "", "", []⟩, cninet := ⟨[]⟩ }

/-- The field `HostConfig` of the container state, as far as cni.go reads it. -/
structure HostConfig where
  NetworkMode : String
deriving DecidableEq

/-- The field `Config` of the container state, as far as cni.go reads it; the label
map is kept as an association list. -/
structure Config where
  Labels : List (String × String)
deriving DecidableEq

/-- Modelled from the spec: the struct `DockerPluginState` is declared in a file of
the cniglue package that is not part of the sources; it carries the container
attributes of spec section 6 (network mode, labels) and the fields `ContainerID` and
`Pid` that `NewCNIExec` reads. -/
structure DockerPluginState where
  ContainerID : String
  Pid : Int
  HostConfig : HostConfig
  Config : Config
deriving DecidableEq

/-- What one executor operation did, in program order. -/
inductive Event where
  | label (key : String)
  | confFiles (dir : String)
  | setenv (key value : String)
  | confFromFile (file : String)
  | add (index : Nat) (outcome : Except Error Result)
  | del (index : Nat) (outcome : Option Error)

/-- The collaborators of cni.go over a world state `σ`: the package variables
`CniDir` and `CniPath`, the Docker `NetworkMode` methods, `net.ParseCIDR` followed by
`ip.String()`, the `libcni` loaders, `os.Setenv`, and the plugin invocations
`AddNetwork` and `DelNetwork` of `libcni.CNIConfig`. -/
structure Env (σ : Type) where
  CniDir : Format
  CniPath : List String
  IsContainer : String → Bool
  IsHost : String → Bool
  IsNone : String → Bool
  NetworkName : String → String
  ParseCIDR : String → Except Error String
  ConfFiles : σ → String → Except Error (List String)
  ConfFromFile : σ → String → Except Error NetworkConfig
  Setenv : σ → String → String → σ
  AddNetwork : σ → CNIConfig → NetworkConfig → RuntimeConf → Except Error Result × σ
  DelNetwork : σ → CNIConfig → NetworkConfig → RuntimeConf → Option Error × σ

/-- The initial value of the package variable `CniDir` (cni.go:15); package cniconf
assigns its own `cniDir` to it at start-up (watcher.go:24), so the executor takes the
current value from its environment. -/
def CniDir : Format := ⟨"/etc/docker/cni/", ".d"⟩

/-- The initial value of the package variable `CniPath` (cni.go:16). -/
def CniPath : List String :=
  ["/opt/cni/bin", "/var/lib/cni/bin", "/usr/local/sbin", "/usr/sbin", "/sbin",
   "/usr/local/bin", "/usr/bin", "/bin"]

/-- The order of `sort.Strings`: bytewise lexicographic, here on the character
lists (UTF-8 keeps the code point order). -/
def stringLE (a b : String) : Bool := decide (a.data ≤ b.data)

/-- The call `sort.Strings(files)`. -/
def sortStrings (files : List String) : List String :=
  List.insertionSort (fun a b => stringLE a b = true) files

/-- The method `(*CNIExec).Add` (cni.go:34); `none` is the index-out-of-range panic
of `c.confs[index]`. A successful `AddNetwork` yields a non-nil result, as `libcni`
does, so that `pluginResult.IP4` in `CNIAdd` is defined. -/
def CNIExec.Add {σ : Type} (env : Env σ) (c : CNIExec) (w : σ) (index : Nat) :
    Option (Except Error Result × σ) :=
  match c.confs[index]? with
  | none => none
  | some conf => some (env.AddNetwork w c.cninet conf c.runtimeConf)

/-- The method `(*CNIExec).Del` (cni.go:38): the runtime configuration is copied and
its `NetNS` cleared; `none` is the index-out-of-range panic. -/
def CNIExec.Del {σ : Type} (env : Env σ) (c : CNIExec) (w : σ) (index : Nat) :
    Option (Option Error × σ) :=
  match c.confs[index]? with
  | none => none
  | some conf =>
    let rt := { c.runtimeConf with NetNS := "" }
    some (env.DelNetwork w c.cninet conf rt)

/-- One conditional append of cni.go:66-76: when the label is present, the pair
`(arg, value)` is appended to the arguments. -/
def appendLabelArg (labels : List (String × String)) (key arg : String)
    (args : List (String × String)) : List (String × String) :=
  match labels.lookup key with
  | some v => args ++ [(arg, v)]
  | none => args

/-- The append of cni.go:80-85: the label `io.rancher.container.ip` contributes an
`IP` argument only when it parses as a CIDR. -/
def appendIPArg {σ : Type} (env : Env σ) (labels : List (String × String))
    (args : List (String × String)) : List (String × String) :=
  match labels.lookup "io.rancher.container.ip" with
  | some cidr =>
    match env.ParseCIDR cidr with
    | .ok ip => args ++ [("IP", ip)]
    | .error _ => args
  | none => args

/-- The loop of cni.go:101-107: load every file in order, stop at the first load
error. -/
def loadConfs {σ : Type} (env : Env σ) (w : σ) :
    List String → List NetworkConfig → Except Error (List NetworkConfig) × List Event
  | [], confs => (.ok confs, [])
  | file :: files, confs =>
    match env.ConfFromFile w file with
    | .error e => (.error e, [Event.confFromFile file])
    | .ok netConf =>
      let r := loadConfs env w files (confs ++ [netConf])
      (r.1, Event.confFromFile file :: r.2)

/-- The directory of cni.go:87-92: the network name of the container's network
mode, `default` when that is empty, formatted with `CniDir`. -/
def networkDir {σ : Type} (env : Env σ) (state : DockerPluginState) : String :=
  let network := env.NetworkName state.HostConfig.NetworkMode
  let network := if network = "" then "default" else network
  Sprintf env.CniDir network

/-- The labels that `NewCNIExec` looks up, in program order. -/
def labelReads : List Event :=
  [Event.label "io.rancher.container.uuid", Event.label "io.rancher.cni.link_mtu_overhead",
   Event.label "io.rancher.container.mac_address", Event.label "io.rancher.container.ip"]

/-- The function `NewCNIExec` (cni.go:44). Returns the executor or the error, the
world after the call and the log of what was read. -/
def NewCNIExec {σ : Type} (env : Env σ) (state : DockerPluginState) (w : σ) :
    Except Error CNIExec × σ × List Event :=
  if env.IsContainer state.HostConfig.NetworkMode ||
      env.IsHost state.HostConfig.NetworkMode ||
      env.IsNone state.HostConfig.NetworkMode then
    (.ok CNIExec.zero, w, [])
  else
    let labels := state.Config.Labels
    let args0 : List (String × String) := [("IgnoreUnknown", "1"), ("DOCKER", "true")]
    let args1 := appendLabelArg labels "io.rancher.container.uuid" "RancherContainerUUID" args0
    let args2 := appendLabelArg labels "io.rancher.cni.link_mtu_overhead" "LinkMTUOverhead" args1
    let args3 := appendLabelArg labels "io.rancher.container.mac_address" "MACAddress" args2
    let args4 := appendIPArg env labels args3
    let runtimeConf : RuntimeConf :=
      { ContainerID := state.ContainerID
        NetNS := "/proc/" ++ toString state.Pid ++ "/ns/net"
        IfName := "eth0"
        Args := args4 }
    let dir := networkDir env state
    match env.ConfFiles w dir with
    | .error e => (.error e, w, labelReads ++ [Event.confFiles dir])
    | .ok files =>
      let sorted := sortStrings files
      let path := String.intercalate ":" env.CniPath
      let w1 := env.Setenv w "PATH" path
      let log1 := labelReads ++ [Event.confFiles dir, Event.setenv "PATH" path]
      match loadConfs env w1 sorted [] with
      | (.error e, log2) => (.error e, w1, log1 ++ log2)
      | (.ok confs, log2) =>
        (.ok { confs := confs, runtimeConf := runtimeConf, cninet := ⟨env.CniPath⟩ },
          w1, log1 ++ log2)

/-- What `CNIAdd` returns (the Go pair `(*types.Result, error)`), the world after
the call and the log. -/
structure AddOutcome (σ : Type) where
  result : Option Result
  err : Option Error
  world : σ
  log : List Event

/-- What `CNIDel` returns, the world after the call and the log. -/
structure DelOutcome (σ : Type) where
  err : Option Error
  world : σ
  log : List Event

/-- The loop `for i := range c.confs` of `CNIAdd` (cni.go:119-127) over the
remaining indices, with the current value of `result`; `none` is a panic. -/
def addLoop {σ : Type} (env : Env σ) (c : CNIExec) :
    List Nat → Option Result → σ → Option (AddOutcome σ)
  | [], result, w => some ⟨result, none, w, []⟩
  | i :: is, result, w =>
    match c.Add env w i with
    | none => none
    | some (.error e, w1) => some ⟨none, some e, w1, [Event.add i (.error e)]⟩
    | some (.ok pluginResult, w1) =>
      let result1 := if pluginResult.IP4.isSome then some pluginResult else result
      match addLoop env c is result1 w1 with
      | none => none
      | some out => some { out with log := Event.add i (.ok pluginResult) :: out.log }

/-- The function `CNIAdd` (cni.go:112); `none` is a panic. -/
def CNIAdd {σ : Type} (env : Env σ) (state : DockerPluginState) (w : σ) :
    Option (AddOutcome σ) :=
  match NewCNIExec env state w with
  | (.error e, w1, log) => some ⟨none, some e, w1, log⟩
  | (.ok c, w1, log) =>
    match addLoop env c (List.range c.confs.length) none w1 with
    | none => none
    | some out => some { out with log := log ++ out.log }

/-- The loop `for i := len(c.confs) - 1; i >= 0; i--` of `CNIDel` (cni.go:139-143):
the first argument is `i + 1`, so the loop ends when it reaches zero. -/
def delLoop {σ : Type} (env : Env σ) (c : CNIExec) :
    Nat → Option Error → σ → Option (DelOutcome σ)
  | 0, lastErr, w => some ⟨lastErr, w, []⟩
  | i + 1, lastErr, w =>
    match c.Del env w i with
    | none => none
    | some (err, w1) =>
      let lastErr1 := if err.isSome then err else lastErr
      match delLoop env c i lastErr1 w1 with
      | none => none
      | some out => some { out with log := Event.del i err :: out.log }

/-- The function `CNIDel` (cni.go:132); `none` is a panic. -/
def CNIDel {σ : Type} (env : Env σ) (state : DockerPluginState) (w : σ) :
    Option (DelOutcome σ) :=
  match NewCNIExec env state w with
  | (.error e, w1, log) => some ⟨some e, w1, log⟩
  | (.ok c, w1, log) =>
    match delLoop env c c.confs.length none w1 with
    | none => none
    | some out => some { out with log := log ++ out.log }

/-- The indices on which `Add` was invoked, in invocation order. -/
def addIndices : List Event → List Nat
  | [] => []
  | Event.add i _ :: evs => i :: addIndices evs
  | _ :: evs => addIndices evs

/-- The indices on which `Del` was invoked, in invocation order. -/
def delIndices : List Event → List Nat
  | [] => []
  | Event.del i _ :: evs => i :: delIndices evs
  | _ :: evs => delIndices evs

/-- The errors of the failing `Del` invocations, in invocation order. -/
def delErrors : List Event → List Error
  | [] => []
  | Event.del _ (some e) :: evs => e :: delErrors evs
  | _ :: evs => delErrors evs

/-- Whether the event is a plugin invocation (`Add` or `Del`). -/
def Event.isPluginCall : Event → Bool
  | Event.add _ _ => true
  | Event.del _ _ => true
  | _ => false

/-- The log of successful `Add` invocations on the indices `start, start + 1, ...`
with the given results. -/
def okAdds : Nat → List Result → List Event
  | _, [] => []
  | start, r :: rs => Event.add start (.ok r) :: okAdds (start + 1) rs

/-- The log of `Del` invocations on the indices `k - 1, ..., 0`, where `outcomes`
lists the outcomes in invocation order. -/
def dels : Nat → List (Option Error) → List Event
  | 0, _ => []
  | _ + 1, [] => []
  | i + 1, o :: os => Event.del i o :: dels i os

/-- The last result with a non-nil `IP4`, if any. -/
def lastWithIP4 (results : List Result) : Option Result :=
  (results.filter fun r => r.IP4.isSome).getLast?

/-- The network modes for which `NewCNIExec` builds no chain (cni.go:45-47). -/
def skipsPlugins {σ : Type} (env : Env σ) (state : DockerPluginState) : Bool :=
  env.IsContainer state.HostConfig.NetworkMode ||
    env.IsHost state.HostConfig.NetworkMode ||
    env.IsNone state.HostConfig.NetworkMode

/-- An in-memory environment over the trivial world: the configuration directory
lists `files`, every file loads as a configuration named after it, and the plugin
named `name` answers `adds name` to an add and `dels name` to a delete. The network
mode methods follow the Docker sources. -/
def testEnv (files : List String) (adds : String → Except Error Result)
    (dels : String → Option Error) : Env Unit :=
  { CniDir := CniDir
    CniPath := CniPath
    IsContainer := fun n => "container:".data.isPrefixOf n.data
    IsHost := fun n => n = "host"
    IsNone := fun n => n = "none"
    NetworkName := fun n => n
    ParseCIDR := fun _ => .error "invalid CIDR address"
    ConfFiles := fun _ _ => .ok files
    ConfFromFile := fun _ file => .ok ⟨file, "test", ""⟩
    Setenv := fun w _ _ => w
    AddNetwork := fun w _ conf _ => (adds conf.Name, w)
    DelNetwork := fun w _ conf _ => (dels conf.Name, w) }

/-- A container on a user-defined network. -/
def testState (mode : String) : DockerPluginState :=
  { ContainerID := "c1", Pid := 42, HostConfig := ⟨mode⟩, Config := ⟨[]⟩ }

end glue

namespace cniconf

mutual
/-- A value of Go type `interface{}` as the metadata client decodes it from JSON:
nil, a bool, a float64 (finite, compared by its numeric value), a string, a slice
or a `map[string]interface{}`. -/
inductive Value where
  | null
  | bool (b : Bool)
  | number (q : ℚ)
  | string (s : String)
  | array (items : Values)
  | object (fields : Fields)
deriving DecidableEq
/-- The elements of a `[]interface{}`. -/
inductive Values where
  | nil
  | cons (v : Value) (vs : Values)
deriving DecidableEq
/-- The entries of a `map[string]interface{}`, one per key and listed in ascending
key order, so that equality of entry lists is `reflect.DeepEqual` of the maps. A
`range` over the map visits the entries in the order of the list; the theorems hold
for every list, hence for every visiting order. -/
inductive Fields where
  | nil
  | cons (key : String) (v : Value) (fs : Fields)
deriving DecidableEq
end

/-- The map index expression `m[key]`; `none` when the key is absent. -/
def Fields.lookup : Fields → String → Option Value
  | .nil, _ => none
  | .cons k v fs, key => if k = key then some v else fs.lookup key

/-- The entries of the map as pairs. -/
def Fields.toList : Fields → List (String × Value)
  | .nil => []
  | .cons k v fs => (k, v) :: fs.toList

/-- Modelled from the spec: the struct `metadata.Network` of the metadata client
library, which is not part of the sources; spec section 3 gives its fields: identity
(UUID, Name), owning environment, the `Default` flag and the metadata bag. -/
structure Network where
  Name : String
  UUID : String
  EnvironmentUUID : String
  Default : Bool
  Metadata : Fields
deriving DecidableEq

/-- The zero value `metadata.Network{}`, which indexing the cache yields for an
absent name. -/
def Network.zero : Network := ⟨"", "", "", false, .nil⟩

/-- Modelled from the spec: the struct `metadata.Host` of the metadata client
library, of which the watcher reads the environment identity only. -/
structure Host where
  UUID : String
  EnvironmentUUID : String
deriving DecidableEq

/-- A `time.Time`, in nanoseconds since the zero `time.Time{}`. -/
abbrev Time := Int

/-- A `time.Duration`, in nanoseconds. -/
abbrev Duration := Int

/-- The largest `time.Duration` (an int64). -/
def maxDuration : Duration := 2 ^ 63 - 1

/-- The smallest `time.Duration` (an int64). -/
def minDuration : Duration := -(2 ^ 63)

/-- The method `t.Sub(u)`: the difference, saturated to the range of `Duration`. -/
def Sub (t u : Time) : Duration :=
  if t - u > maxDuration then maxDuration
  else if t - u < minDuration then minDuration
  else t - u

/-- The package variable `reapplyEvery = 5 * time.Minute` (watcher.go:19). -/
def reapplyEvery : Duration := 5 * (60 * 1000000000)

/-- The package variable `cniDir = "/etc/cni/%s.d"` (watcher.go:20). -/
def cniDir : Format := ⟨"/etc/cni/", ".d"⟩

/-- What `os.Stat` returns, as far as `os.SameFile` reads it. -/
structure FileInfo where
  Dev : Nat
  Ino : Nat
deriving DecidableEq

/-- The function `os.SameFile`: same device and same inode. -/
def SameFile (a b : FileInfo) : Bool := a.Dev == b.Dev && a.Ino == b.Ino

/-- The collaborators of watcher.go over a world state `σ`: the metadata client,
the clock, `encoding/json`, `filepath.Join` and the filesystem calls. -/
structure Env (σ : Type) where
  GetNetworks : σ → Except Error (List Network) × σ
  GetSelfHost : σ → Except Error Host × σ
  Now : σ → Time × σ
  MkdirAll : σ → String → Nat → Option Error × σ
  Marshal : Value → Except Error String
  Indent : String → String → String → Except Error String
  Join : String → String → String
  WriteFile : σ → String → String → Nat → Option Error × σ
  Stat : σ → String → Except Error FileInfo × σ
  Remove : σ → String → Option Error × σ
  Symlink : σ → String → String → Option Error × σ

/-- One step of `apply` with its outcome, in program order. -/
inductive Step where
  | mkdirAll (path : String) (perm : Nat) (err : Option Error)
  | marshal (file : String) (err : Option Error)
  | indent (file : String) (err : Option Error)
  | writeFile (path data : String) (perm : Nat) (err : Option Error)
  | stat (path : String) (found : Bool)
  | remove (path : String) (err : Option Error)
  | symlink (oldname newname : String) (err : Option Error)
deriving DecidableEq

/-- The struct `watcher` (watcher.go:36) without its client, which is the
environment: the map `applied` and the time `lastApplied`. -/
structure watcher where
  applied : String → Option Network
  lastApplied : Time

/-- The index expression `w.applied[name]`: the zero value for an absent name. -/
def watcher.lookup (w : watcher) (name : String) : Network :=
  (w.applied name).getD Network.zero

/-- The assignment `m[name] = network` on the map. -/
def setApplied (m : String → Option Network) (name : String) (network : Network) :
    String → Option Network :=
  fun k => if k = name then some network else m k

/-- The type assertion `network.Metadata["cniConfig"].(map[string]interface{})`:
the mapping when the entry is present and is a mapping, `none` when `ok` is false. -/
def cniConfigOf (network : Network) : Option Fields :=
  match network.Metadata.lookup "cniConfig" with
  | some (.object fields) => some fields
  | _ => none

/-- The loop over the files of `apply` (watcher.go:89-107) with the current value
of `lastErr`. -/
def writeFiles {σ : Type} (env : Env σ) (confDir : String) :
    List (String × Value) → Option Error → σ → Option Error × σ × List Step
  | [], lastErr, s => (lastErr, s, [])
  | (file, config) :: rest, lastErr, s =>
    let p := env.Join confDir file
    match env.Marshal config with
    | .error e =>
      let r := writeFiles env confDir rest (some e) s
      (r.1, r.2.1, Step.marshal file (some e) :: r.2.2)
    | .ok content =>
      match env.Indent content "" "  " with
      | .error e =>
        let r := writeFiles env confDir rest (some e) s
        (r.1, r.2.1, Step.marshal file none :: Step.indent file (some e) :: r.2.2)
      | .ok out =>
        let wr := env.WriteFile s p out 0o600
        let lastErr1 := if wr.1.isSome then wr.1 else lastErr
        let r := writeFiles env confDir rest lastErr1 wr.2
        (r.1, r.2.1,
          Step.marshal file none :: Step.indent file none ::
            Step.writeFile p out 0o600 wr.1 :: r.2.2)

/-- The block of `apply` for a default network (watcher.go:110-118) with the
current value of `lastErr`. -/
def relinkManaged {σ : Type} (env : Env σ) (network : Network) (confDir : String)
    (lastErr : Option Error) (s : σ) : Option Error × σ × List Step :=
  let managedDir := Sprintf cniDir "managed"
  let managedDirTest := env.Stat s managedDir
  let configDirTest := env.Stat managedDirTest.2 confDir
  let same :=
    match managedDirTest.1, configDirTest.1 with
    | .ok m, .ok c => SameFile m c
    | _, _ => false
  let stats :=
    [Step.stat managedDir managedDirTest.1.toBool, Step.stat confDir configDirTest.1.toBool]
  if !same then
    let rm := env.Remove configDirTest.2 managedDir
    let ln := env.Symlink rm.2 (network.Name ++ ".d") managedDir
    let lastErr1 := if ln.1.isSome then ln.1 else lastErr
    (lastErr1, ln.2,
      stats ++ [Step.remove managedDir rm.1, Step.symlink (network.Name ++ ".d") managedDir ln.1])
  else
    (lastErr, configDirTest.2, stats)

/-- What `apply` returns, the watcher and the world after the call and the steps
it performed. -/
structure ApplyOutcome (σ : Type) where
  err : Option Error
  w : watcher
  world : σ
  steps : List Step

/-- The method `(*watcher).apply` (watcher.go:81). -/
def apply {σ : Type} (env : Env σ) (w : watcher) (network : Network) (s : σ) :
    ApplyOutcome σ :=
  let cniConf := (cniConfigOf network).getD Fields.nil
  let confDir := Sprintf cniDir network.Name
  let mk := env.MkdirAll s confDir 0o700
  match mk.1 with
  | some e => ⟨some e, w, mk.2, [Step.mkdirAll confDir 0o700 (some e)]⟩
  | none =>
    let wf := writeFiles env confDir cniConf.toList none mk.2
    let rl :=
      if network.Default then relinkManaged env network confDir wf.1 wf.2.1
      else (wf.1, wf.2.1, [])
    let steps := Step.mkdirAll confDir 0o700 none :: (wf.2.2 ++ rl.2.2)
    match rl.1 with
    | none =>
      let now := env.Now rl.2.1
      ⟨none, { applied := setApplied w.applied network.Name network, lastApplied := now.1 },
        now.2, steps⟩
    | some e => ⟨some e, w, rl.2.1, steps⟩

/-- One invocation of `apply` by `onChange`: the network, the returned error and the
steps performed. -/
structure ApplyRecord where
  network : Network
  err : Option Error
  steps : List Step
deriving DecidableEq

/-- The watcher and the world after a run of the loop, and the invocations of
`apply` in order. -/
structure LoopOutcome (σ : Type) where
  w : watcher
  world : σ
  applies : List ApplyRecord

/-- The loop over the networks of `onChange` (watcher.go:61-76). -/
def processNetworks {σ : Type} (env : Env σ) (host : Host) (forceApply : Bool) :
    List Network → watcher → σ → LoopOutcome σ
  | [], w, s => ⟨w, s, []⟩
  | network :: rest, w, s =>
    if network.EnvironmentUUID ≠ host.EnvironmentUUID then
      processNetworks env host forceApply rest w s
    else
      match cniConfigOf network with
      | none => processNetworks env host forceApply rest w s
      | some _ =>
        if forceApply || decide (w.lookup network.Name ≠ network) then
          let r := apply env w network s
          let out := processNetworks env host forceApply rest r.w r.world
          { out with applies := ⟨network, r.err, r.steps⟩ :: out.applies }
        else
          processNetworks env host forceApply rest w s

/-- The value `forceApply` of watcher.go:59 for the clock reading `now`. -/
def forceApply (now : Time) (w : watcher) : Bool :=
  decide (Sub now w.lastApplied > reapplyEvery)

/-- What `onChange` returns, the watcher and the world after the cycle and the
invocations of `apply` in order. -/
structure CycleOutcome (σ : Type) where
  err : Option Error
  w : watcher
  world : σ
  applies : List ApplyRecord

/-- The method `(*watcher).onChange` (watcher.go:48). -/
def onChange {σ : Type} (env : Env σ) (w : watcher) (s : σ) : CycleOutcome σ :=
  let nets := env.GetNetworks s
  match nets.1 with
  | .error e => ⟨some e, w, nets.2, []⟩
  | .ok networks =>
    let self := env.GetSelfHost nets.2
    match self.1 with
    | .error e => ⟨some e, w, self.2, []⟩
    | .ok host =>
      let now := env.Now self.2
      let out := processNetworks env host (forceApply now.1 w) networks w now.2
      ⟨none, out.w, out.world, out.applies⟩

/-- Whether the step is one whose failure `apply` records: directory creation,
serialization (marshal, indent), write or symlink creation, with a non-nil error.
The two stats and the removal of the old managed path are not: their errors are
read as "does not resolve" and ignored, respectively. -/
def Step.failed : Step → Bool
  | .mkdirAll _ _ err => err.isSome
  | .marshal _ err => err.isSome
  | .indent _ err => err.isSome
  | .writeFile _ _ _ err => err.isSome
  | .symlink _ _ err => err.isSome
  | .stat _ _ => false
  | .remove _ _ => false

/-- Whether the step belongs to the handling of the managed path: a stat, a removal
or a symlink creation. -/
def Step.isLinkStep : Step → Bool
  | .stat _ _ => true
  | .remove _ _ => true
  | .symlink _ _ _ => true
  | _ => false

/-- Whether the step removes a path or creates a symlink. -/
def Step.isRelink : Step → Bool
  | .remove _ _ => true
  | .symlink _ _ _ => true
  | _ => false

/-- The condition of spec section 4.1 step 3 under which a network is applied: it
belongs to the host's environment, it has a `cniConfig` entry of mapping type, and
`forceApply` holds or the cache has no equal snapshot under the network's name. -/
def shouldApply (host : Host) (forceApply : Bool) (w : watcher) (network : Network) : Bool :=
  decide (network.EnvironmentUUID = host.EnvironmentUUID) &&
    (cniConfigOf network).isSome &&
    (forceApply || decide (w.applied network.Name ≠ some network))

/-- A network that `onChange` considers for a host: same environment and a
`cniConfig` entry of mapping type. -/
def eligible (host : Host) (network : Network) : Bool :=
  decide (network.EnvironmentUUID = host.EnvironmentUUID) && (cniConfigOf network).isSome

/-- The world of an in-memory test double: the clock reading, what the metadata
source delivers, the paths on which directory creation and writes fail, and the
inode that each existing directory path resolves to. -/
structure TestWorld where
  clock : Time
  networks : List Network
  host : Host
  badPaths : List String
  inodes : List (String × Nat)
deriving DecidableEq

/-- An in-memory test double of the collaborators of watcher.go. -/
def testFS : Env TestWorld :=
  { GetNetworks := fun s => (.ok s.networks, s)
    GetSelfHost := fun s => (.ok s.host, s)
    Now := fun s => (s.clock, s)
    MkdirAll := fun s path _ =>
      if path ∈ s.badPaths then (some ("mkdir " ++ path ++ ": permission denied"), s)
      else if (s.inodes.lookup path).isSome then (none, s)
      else (none, { s with inodes := (path, s.inodes.length + 1) :: s.inodes })
    Marshal := fun _ => .ok "\x7b\x7d"
    Indent := fun src _ _ => .ok src
    Join := fun dir file => dir ++ "/" ++ file
    WriteFile := fun s path _ _ =>
      if path ∈ s.badPaths then (some ("open " ++ path ++ ": permission denied"), s)
      else (none, s)
    Stat := fun s path =>
      match s.inodes.lookup path with
      | some ino => (.ok ⟨1, ino⟩, s)
      | none => (.error ("stat " ++ path ++ ": no such file or directory"), s)
    Remove := fun s path =>
      if (s.inodes.lookup path).isSome then
        (none, { s with inodes := s.inodes.filter fun e => e.1 ≠ path })
      else (some ("remove " ++ path ++ ": no such file or directory"), s)
    Symlink := fun s oldname newname =>
      if (s.inodes.lookup newname).isSome then
        (some ("symlink " ++ newname ++ ": file exists"), s)
      else
        match s.inodes.lookup ("/etc/cni/" ++ oldname) with
        | some ino => (none, { s with inodes := (newname, ino) :: s.inodes })
        | none => (none, s) }

/-- A network with one bridge configuration file. -/
def testNetwork (name : String) (isDefault : Bool) : Network :=
  { Name := name, UUID := "uuid-" ++ name, EnvironmentUUID := "e1", Default := isDefault,
    Metadata :=
      .cons "cniConfig"
        (.object (.cons "10-bridge.conf" (.object (.cons "type" (.string "bridge") .nil)) .nil))
        .nil }

/-- The host of environment `e1`. -/
def testHost : Host := ⟨"host-1", "e1"⟩

/-- A watcher that has applied nothing since the zero time. -/
def freshWatcher : watcher := ⟨fun _ => none, 0⟩

/-- One second, in nanoseconds. -/
def second : Duration := 1000000000

/-- The world in which `onChange` reads the clock: after the two metadata fetches. -/
def afterFetch {σ : Type} (env : Env σ) (s : σ) : σ :=
  (env.GetSelfHost (env.GetNetworks s).2).2

/-- The value of `forceApply` in the cycle that starts in world `s`. -/
def cycleForce {σ : Type} (env : Env σ) (w : watcher) (s : σ) : Bool :=
  forceApply (env.Now (afterFetch env s)).1 w

/-- The world in which the loop over the networks starts. -/
def loopStart {σ : Type} (env : Env σ) (s : σ) : σ :=
  (env.Now (afterFetch env s)).2

/-- The outcome of the file loop of `apply`: the value of `lastErr`, the world and
the steps performed when `apply` reaches the block for a default network. -/
def fileStage {σ : Type} (env : Env σ) (network : Network) (s : σ) :
    Option Error × σ × List Step :=
  writeFiles env (Sprintf cniDir network.Name)
    ((cniConfigOf network).getD Fields.nil).toList none
    (env.MkdirAll s (Sprintf cniDir network.Name) 0o700).2

/-- The steps that spec section 4.2 prescribes for one `cniConfig` entry in world
`s`, with the outcomes that the environment gives: serialize the value (marshal, then
indent with two spaces) and, when that succeeded, write the text to
`<confDir>/<fileName>` with permissions 0600. -/
def stepsOfFile {σ : Type} (env : Env σ) (confDir : String) (entry : String × Value)
    (s : σ) : List Step :=
  match env.Marshal entry.2 with
  | .error e => [Step.marshal entry.1 (some e)]
  | .ok content =>
    match env.Indent content "" "  " with
    | .error e => [Step.marshal entry.1 none, Step.indent entry.1 (some e)]
    | .ok out =>
      [Step.marshal entry.1 none, Step.indent entry.1 none,
       Step.writeFile (env.Join confDir entry.1) out 0o600
         (env.WriteFile s (env.Join confDir entry.1) out 0o600).1]

/-- The world after the steps of one `cniConfig` entry: the world that the write
left, or the same world when the serialization failed and nothing was written. -/
def afterFile {σ : Type} (env : Env σ) (confDir : String) (entry : String × Value)
    (s : σ) : σ :=
  match env.Marshal entry.2 with
  | .error _ => s
  | .ok content =>
    match env.Indent content "" "  " with
    | .error _ => s
    | .ok out => (env.WriteFile s (env.Join confDir entry.1) out 0o600).2

/-- The world after the steps of a list of entries, taken in order. -/
def afterFiles {σ : Type} (env : Env σ) (confDir : String) :
    List (String × Value) → σ → σ
  | [], s => s
  | entry :: rest, s => afterFiles env confDir rest (afterFile env confDir entry s)

/-- The steps prescribed for a list of entries: those of every entry, in order,
whether or not an earlier entry failed. -/
def stepsOfFiles {σ : Type} (env : Env σ) (confDir : String) :
    List (String × Value) → σ → List Step
  | [], _ => []
  | entry :: rest, s =>
    stepsOfFile env confDir entry s ++
      stepsOfFiles env confDir rest (afterFile env confDir entry s)

/-- Whether, in world `s`, the managed path and `confDir` can both be stat'ed and
are the same file. -/
def sameDirectory {σ : Type} (env : Env σ) (confDir : String) (s : σ) : Bool :=
  match (env.Stat s (Sprintf cniDir "managed")).1,
    (env.Stat (env.Stat s (Sprintf cniDir "managed")).2 confDir).1 with
  | .ok m, .ok c => SameFile m c
  | _, _ => false

/-- The world after the two stats of the managed path and of `confDir`. -/
def afterStats {σ : Type} (env : Env σ) (confDir : String) (s : σ) : σ :=
  (env.Stat (env.Stat s (Sprintf cniDir "managed")).2 confDir).2

/-- The steps that spec section 4.2 prescribes for a default network in world `s`,
with the outcomes that the environment gives: stat the managed path and the network's
directory; unless they are the same directory, remove the managed path and create
the symlink `<network name>.d` at it. -/
def stepsOfLink {σ : Type} (env : Env σ) (network : Network) (confDir : String)
    (s : σ) : List Step :=
  [Step.stat (Sprintf cniDir "managed") (env.Stat s (Sprintf cniDir "managed")).1.toBool,
   Step.stat confDir (env.Stat (env.Stat s (Sprintf cniDir "managed")).2 confDir).1.toBool] ++
    if sameDirectory env confDir s then []
    else
      [Step.remove (Sprintf cniDir "managed")
         (env.Remove (afterStats env confDir s) (Sprintf cniDir "managed")).1,
       Step.symlink (network.Name ++ ".d") (Sprintf cniDir "managed")
         (env.Symlink (env.Remove (afterStats env confDir s) (Sprintf cniDir "managed")).2
           (network.Name ++ ".d") (Sprintf cniDir "managed")).1]

/-- The world after the steps for a default network. -/
def afterLink {σ : Type} (env : Env σ) (network : Network) (confDir : String) (s : σ) : σ :=
  if sameDirectory env confDir s then afterStats env confDir s
  else
    (env.Symlink (env.Remove (afterStats env confDir s) (Sprintf cniDir "managed")).2
      (network.Name ++ ".d") (Sprintf cniDir "managed")).2

/-- The entries of the `cniConfig` mapping of a network; none when the network has
no such mapping. -/
def cniConfEntries (network : Network) : List (String × Value) :=
  ((cniConfigOf network).getD Fields.nil).toList

/-- The steps that spec section 4.2 prescribes for a network in world `s`, with the
outcomes that the environment gives: create the directory `<cniRoot>/<name>.d` with
permissions 0700 and, when that succeeded, the steps of every `cniConfig` entry and
then, for a default network, the steps for the managed path. -/
def expectedSteps {σ : Type} (env : Env σ) (network : Network) (s : σ) : List Step :=
  Step.mkdirAll (Sprintf cniDir network.Name) 0o700
      (env.MkdirAll s (Sprintf cniDir network.Name) 0o700).1 ::
    if (env.MkdirAll s (Sprintf cniDir network.Name) 0o700).1.isSome then []
    else
      stepsOfFiles env (Sprintf cniDir network.Name) (cniConfEntries network)
          (env.MkdirAll s (Sprintf cniDir network.Name) 0o700).2 ++
        if network.Default then
          stepsOfLink env network (Sprintf cniDir network.Name)
            (afterFiles env (Sprintf cniDir network.Name) (cniConfEntries network)
              (env.MkdirAll s (Sprintf cniDir network.Name) 0o700).2)
        else []

/-- The world after the prescribed steps of a network. -/
def afterSteps {σ : Type} (env : Env σ) (network : Network) (s : σ) : σ :=
  if (env.MkdirAll s (Sprintf cniDir network.Name) 0o700).1.isSome then
    (env.MkdirAll s (Sprintf cniDir network.Name) 0o700).2
  else if network.Default then
    afterLink env network (Sprintf cniDir network.Name)
      (afterFiles env (Sprintf cniDir network.Name) (cniConfEntries network)
        (env.MkdirAll s (Sprintf cniDir network.Name) 0o700).2)
  else
    afterFiles env (Sprintf cniDir network.Name) (cniConfEntries network)
      (env.MkdirAll s (Sprintf cniDir network.Name) 0o700).2

/-- The world of the test double at a clock reading, delivering two networks of the
host's environment, with the given failing paths and no directory yet. -/
def testWorld (clock : Time) (badPaths : List String) : TestWorld :=
  ⟨clock, [testNetwork "net1" true, testNetwork "net2" false], testHost, badPaths, []⟩

/-- A first cycle of the test double: a fresh watcher is delivered both networks,
everything succeeds. -/
def bothApplied : CycleOutcome TestWorld :=
  onChange testFS freshWatcher (testWorld (400 * second) [])

/-- A forced cycle 400 seconds later in which the write of the file of `net1` fails
and the apply of `net2` succeeds. -/
def forcedCycle : CycleOutcome TestWorld :=
  onChange testFS bothApplied.w
    { bothApplied.world with
      clock := 800 * second, badPaths := ["/etc/cni/net1.d/10-bridge.conf"] }

/-- The cycle one second after `forcedCycle`, same networks, no failing path. -/
def afterForcedCycle : CycleOutcome TestWorld :=
  onChange testFS forcedCycle.w { forcedCycle.world with clock := 801 * second, badPaths := [] }

/-- A first cycle of the test double that is delivered `net2` only. -/
def onlyNet2 : CycleOutcome TestWorld :=
  onChange testFS freshWatcher ⟨400 * second, [testNetwork "net2" false], testHost, [], []⟩

/-- The world one second after `onlyNet2`: `net1` has appeared and the creation of
its directory fails. -/
def net1Appears : TestWorld :=
  { onlyNet2.world with
    clock := 401 * second
    networks := [testNetwork "net2" false, testNetwork "net1" true]
    badPaths := ["/etc/cni/net1.d"] }

/-- The cycle in which `net1` appears and its apply fails. -/
def failingCycle : CycleOutcome TestWorld :=
  onChange testFS onlyNet2.w net1Appears

/-- The cycle one second after `failingCycle`, delivered the identical snapshots. -/
def repeatedCycle : CycleOutcome TestWorld :=
  onChange testFS failingCycle.w { failingCycle.world with clock := 402 * second }

end cniconf

namespace glue

/-- A chain of three plugins whose second add fails. -/
def addEnv : Env Unit :=
  testEnv ["30-c.conf", "10-a.conf", "20-b.conf"]
    (fun name =>
      if name = "10-a.conf" then .ok ⟨some ⟨"10.0.0.2", "10.0.0.1"⟩, none⟩
      else if name = "20-b.conf" then .error "add failed: 20-b.conf"
      else .ok ⟨none, none⟩)
    (fun _ => none)

/-- A chain of three plugins: on delete, the first and the third invoked fail. -/
def delEnv : Env Unit :=
  testEnv ["20-b.conf", "30-c.conf", "10-a.conf"]
    (fun name =>
      if name = "20-b.conf" then .ok ⟨some ⟨"10.0.0.2", "10.0.0.1"⟩, none⟩
      else .ok ⟨none, none⟩)
    (fun name =>
      if name = "30-c.conf" then some "del failed: 30-c.conf"
      else if name = "10-a.conf" then some "del failed: 10-a.conf"
      else none)

/-- The chain that `NewCNIExec` builds in the two environments above. -/
def testChain : CNIExec :=
  { confs := [⟨"10-a.conf", "test", ""⟩, ⟨"20-b.conf", "test", ""⟩, ⟨"30-c.conf", "test", ""⟩]
    runtimeConf :=
      { ContainerID := "c1", NetNS := "/proc/" ++ toString (42 : Int) ++ "/ns/net",
        IfName := "eth0", Args := [("IgnoreUnknown", "1"), ("DOCKER", "true")] }
    cninet := ⟨CniPath⟩ }

/-- The log of `NewCNIExec` in the two environments above. -/
def testLoadLog : List Event :=
  labelReads ++ [Event.confFiles "/etc/docker/cni/net1.d",
    Event.setenv "PATH" (String.intercalate ":" CniPath),
    Event.confFromFile "10-a.conf", Event.confFromFile "20-b.conf", Event.confFromFile "30-c.conf"]

end glue

/-! ## The plugin chain executor -/

namespace glue

theorem lastWithIP4_nil : lastWithIP4 [] = none := rfl

theorem lastWithIP4_cons (r : Result) (rs : List Result) :
    lastWithIP4 (r :: rs) = (lastWithIP4 rs).or (if r.IP4.isSome then some r else none) := by
  unfold lastWithIP4
  by_cases h : r.IP4.isSome = true
  · have hf : List.filter (fun r : Result => r.IP4.isSome) (r :: rs)
        = [r] ++ List.filter (fun r : Result => r.IP4.isSome) rs := by
      simp [List.filter_cons, h]
    rw [hf, List.getLast?_append, if_pos h]
    rfl
  · have hf : List.filter (fun r : Result => r.IP4.isSome) (r :: rs)
        = List.filter (fun r : Result => r.IP4.isSome) rs := by
      simp [List.filter_cons, h]
    rw [hf, if_neg h]
    cases (List.filter (fun r : Result => r.IP4.isSome) rs).getLast? <;> rfl

theorem addLoop_range' {σ : Type} (env : Env σ) (c : CNIExec) (m : Nat) :
    ∀ (s : Nat) (result : Option Result) (w : σ), s + m ≤ c.confs.length →
      ∃ out results, addLoop env c (List.range' s m) result w = some out ∧
        ((out.err = none ∧ results.length = m ∧ out.log = okAdds s results ∧
            out.result = (lastWithIP4 results).or result) ∨
          (∃ e, out.err = some e ∧ out.result = none ∧ results.length < m ∧
            out.log = okAdds s results ++ [Event.add (s + results.length) (.error e)])) := by
  induction m with
  | zero =>
    intro s result w _
    refine ⟨⟨result, none, w, []⟩, [], rfl, Or.inl ⟨rfl, rfl, rfl, ?_⟩⟩
    cases result <;> rfl
  | succ m ih =>
    intro s result w hs
    have hlt : s < c.confs.length := by omega
    rw [List.range'_succ]
    obtain ⟨conf, hconf⟩ : ∃ conf, c.confs[s]? = some conf :=
      ⟨c.confs[s], List.getElem?_eq_getElem hlt⟩
    cases hadd : env.AddNetwork w c.cninet conf c.runtimeConf with
    | mk res w1 =>
      cases res with
      | error e =>
        refine ⟨⟨none, some e, w1, [Event.add s (.error e)]⟩, [], ?_, Or.inr ⟨e, rfl, rfl, ?_, ?_⟩⟩
        · simp [addLoop, CNIExec.Add, hconf, hadd]
        · simp
        · simp [okAdds]
      | ok pr =>
        obtain ⟨out, results, hrun, hcases⟩ :=
          ih (s + 1) (if pr.IP4.isSome then some pr else result) w1 (by omega)
        refine ⟨{ out with log := Event.add s (.ok pr) :: out.log }, pr :: results, ?_, ?_⟩
        · simp [addLoop, CNIExec.Add, hconf, hadd, hrun]
        · rcases hcases with ⟨he, hlen, hlog, hres⟩ | ⟨e, he, hres, hlen, hlog⟩
          · refine Or.inl ⟨he, by simp [hlen], by simp [okAdds, hlog], ?_⟩
            simp only [hres, lastWithIP4_cons]
            cases lastWithIP4 results <;> cases h : pr.IP4.isSome <;> simp [Option.or]
          · refine Or.inr ⟨e, he, hres, by simp; omega, ?_⟩
            simp [okAdds, hlog, Nat.add_assoc, Nat.add_comm 1]

theorem addIndices_append (l₁ l₂ : List Event) :
    addIndices (l₁ ++ l₂) = addIndices l₁ ++ addIndices l₂ := by
  induction l₁ with
  | nil => rfl
  | cons ev evs ih => cases ev <;> simp [addIndices, ih]

theorem delIndices_append (l₁ l₂ : List Event) :
    delIndices (l₁ ++ l₂) = delIndices l₁ ++ delIndices l₂ := by
  induction l₁ with
  | nil => rfl
  | cons ev evs ih => cases ev <;> simp [delIndices, ih]

theorem delErrors_append (l₁ l₂ : List Event) :
    delErrors (l₁ ++ l₂) = delErrors l₁ ++ delErrors l₂ := by
  induction l₁ with
  | nil => rfl
  | cons ev evs ih =>
    cases ev with
    | del i o => cases o <;> simp [delErrors, ih]
    | _ => simp [delErrors, ih]

theorem noCalls_indices (l : List Event) (h : ∀ ev ∈ l, ev.isPluginCall = false) :
    addIndices l = [] ∧ delIndices l = [] ∧ delErrors l = [] := by
  induction l with
  | nil => exact ⟨rfl, rfl, rfl⟩
  | cons ev evs ih =>
    have hev := h ev (List.mem_cons_self _ _)
    have ih := ih fun e he => h e (List.mem_cons_of_mem _ he)
    cases ev <;> simp_all [addIndices, delIndices, delErrors, Event.isPluginCall]

theorem addIndices_okAdds (rs : List Result) :
    ∀ s, addIndices (okAdds s rs) = List.range' s rs.length := by
  induction rs with
  | nil => intro s; rfl
  | cons r rs ih => intro s; simp [okAdds, addIndices, ih, List.range'_succ]

theorem delIndices_okAdds (rs : List Result) : ∀ s, delIndices (okAdds s rs) = [] := by
  induction rs with
  | nil => intro s; rfl
  | cons r rs ih => intro s; simp [okAdds, delIndices, ih]

theorem delIndices_dels (k : Nat) :
    ∀ os : List (Option Error), os.length = k → delIndices (dels k os) = (List.range k).reverse := by
  induction k with
  | zero => intro os _; rfl
  | succ k ih =>
    intro os hlen
    cases os with
    | nil => simp at hlen
    | cons o os =>
      simp only [dels, delIndices, List.range_succ, List.reverse_concat]
      rw [ih os (by simpa using hlen)]

theorem addIndices_dels (k : Nat) : ∀ os : List (Option Error), addIndices (dels k os) = [] := by
  induction k with
  | zero => intro os; rfl
  | succ k ih =>
    intro os
    cases os with
    | nil => rfl
    | cons o os => simp [dels, addIndices, ih]

theorem delLoop_run {σ : Type} (env : Env σ) (c : CNIExec) (k : Nat) :
    ∀ (lastErr : Option Error) (w : σ), k ≤ c.confs.length →
      ∃ out outcomes, delLoop env c k lastErr w = some out ∧ outcomes.length = k ∧
        out.log = dels k outcomes ∧ out.err = (delErrors out.log).getLast?.or lastErr := by
  induction k with
  | zero =>
    intro lastErr w _
    refine ⟨⟨lastErr, w, []⟩, [], rfl, rfl, rfl, ?_⟩
    cases lastErr <;> rfl
  | succ k ih =>
    intro lastErr w hk
    have hlt : k < c.confs.length := by omega
    obtain ⟨conf, hconf⟩ : ∃ conf, c.confs[k]? = some conf :=
      ⟨c.confs[k], List.getElem?_eq_getElem hlt⟩
    cases hdel : env.DelNetwork w c.cninet conf { c.runtimeConf with NetNS := "" } with
    | mk err w1 =>
      obtain ⟨out, outcomes, hrun, hlen, hlog, herr⟩ :=
        ih (if err.isSome then err else lastErr) w1 (by omega)
      refine ⟨{ out with log := Event.del k err :: out.log }, err :: outcomes, ?_, ?_, ?_, ?_⟩
      · simp [delLoop, CNIExec.Del, hconf, hdel, hrun]
      · simp [hlen]
      · simp [dels, hlog]
      · simp only [herr]
        cases err with
        | none => simp [delErrors]
        | some e =>
          have : delErrors (Event.del k (some e) :: out.log) = [e] ++ delErrors out.log := rfl
          rw [this, List.getLast?_append]
          cases (delErrors out.log).getLast? <;> simp [Option.or]

theorem loadConfs_log {σ : Type} (env : Env σ) (w : σ) (files : List String) :
    ∀ acc, ∀ ev ∈ (loadConfs env w files acc).2, ev.isPluginCall = false := by
  induction files with
  | nil => intro acc ev hev; simp [loadConfs] at hev
  | cons f fs ih =>
    intro acc ev hev
    simp only [loadConfs] at hev
    cases hload : env.ConfFromFile w f with
    | error e =>
      rw [hload] at hev
      simp at hev
      subst hev; rfl
    | ok nc =>
      rw [hload] at hev
      simp at hev
      rcases hev with rfl | hev
      · rfl
      · exact ih _ ev hev

theorem loadConfs_ok {σ : Type} (env : Env σ) (w : σ) (files : List String) :
    ∀ acc confs, (loadConfs env w files acc).1 = .ok confs →
      ∃ loaded, confs = acc ++ loaded ∧
        List.Forall₂ (fun file conf => env.ConfFromFile w file = .ok conf) files loaded := by
  induction files with
  | nil =>
    intro acc confs h
    simp [loadConfs] at h
    exact ⟨[], by simp [h], List.Forall₂.nil⟩
  | cons f fs ih =>
    intro acc confs h
    simp only [loadConfs] at h
    cases hload : env.ConfFromFile w f with
    | error e => rw [hload] at h; simp at h
    | ok nc =>
      rw [hload] at h
      obtain ⟨loaded, hconfs, hall⟩ := ih (acc ++ [nc]) confs h
      exact ⟨nc :: loaded, by simp [hconfs], List.Forall₂.cons hload hall⟩

theorem NewCNIExec_skip {σ : Type} (env : Env σ) (state : DockerPluginState) (w : σ)
    (h : skipsPlugins env state = true) : NewCNIExec env state w = (.ok CNIExec.zero, w, []) := by
  unfold skipsPlugins at h
  simp [NewCNIExec, h]

theorem labelReads_noCalls : ∀ ev ∈ labelReads, ev.isPluginCall = false := by
  intro ev hev
  simp [labelReads] at hev
  rcases hev with rfl | rfl | rfl | rfl <;> rfl

theorem NewCNIExec_log {σ : Type} (env : Env σ) (state : DockerPluginState) (w : σ) :
    ∀ ev ∈ (NewCNIExec env state w).2.2, ev.isPluginCall = false := by
  intro ev hev
  unfold NewCNIExec at hev
  split at hev
  · simp at hev
  · simp only at hev
    split at hev
    · simp at hev
      rcases hev with hev | rfl
      · exact labelReads_noCalls ev hev
      · rfl
    · split at hev
      all_goals
        rename_i hl
        simp at hev
        rcases hev with hev | rfl | rfl | hev
        · exact labelReads_noCalls ev hev
        · rfl
        · rfl
        · have := loadConfs_log env _ _ [] ev (by rw [hl]; exact hev)
          exact this

theorem sortStrings_sorted (files : List String) :
    (sortStrings files).Sorted (fun a b => a.data ≤ b.data) ∧ (sortStrings files).Perm files := by
  haveI : IsTotal String (fun a b => stringLE a b = true) :=
    ⟨fun a b => by simpa [stringLE] using le_total a.data b.data⟩
  haveI : IsTrans String (fun a b => stringLE a b = true) :=
    ⟨fun a b c hab hbc => by
      simp only [stringLE, decide_eq_true_eq] at hab hbc ⊢
      exact le_trans hab hbc⟩
  refine ⟨?_, List.perm_insertionSort _ files⟩
  have h := List.sorted_insertionSort (fun a b => stringLE a b = true) files
  exact h.imp fun hab => by simpa [stringLE] using hab

theorem NewCNIExec_chain {σ : Type} (env : Env σ) (state : DockerPluginState) (w w1 : σ)
    (c : CNIExec) (log0 : List Event) (h : NewCNIExec env state w = (.ok c, w1, log0))
    (hmode : skipsPlugins env state = false) :
    ∃ files, env.ConfFiles w (networkDir env state) = .ok files ∧
      List.Forall₂ (fun file conf => env.ConfFromFile w1 file = .ok conf)
        (sortStrings files) c.confs := by
  unfold skipsPlugins at hmode
  unfold NewCNIExec at h
  rw [if_neg (by simp [hmode])] at h
  simp only at h
  cases hfiles : env.ConfFiles w (networkDir env state) with
  | error e => rw [hfiles] at h; simp at h
  | ok files =>
    rw [hfiles] at h
    simp only at h
    refine ⟨files, rfl, ?_⟩
    split at h
    · simp at h
    · rename_i confs log2 hl
      simp only [Prod.mk.injEq, Except.ok.injEq] at h
      obtain ⟨hc, hw, _⟩ := h
      obtain ⟨loaded, hconfs, hall⟩ := loadConfs_ok env _ _ [] confs (by rw [hl])
      subst hc hw
      simpa [hconfs] using hall

theorem CNIAdd_run {σ : Type} (env : Env σ) (state : DockerPluginState) (w w1 : σ)
    (c : CNIExec) (log0 : List Event) (h : NewCNIExec env state w = (.ok c, w1, log0)) :
    ∃ out results, CNIAdd env state w = some out ∧
      ((out.err = none ∧ results.length = c.confs.length ∧ out.log = log0 ++ okAdds 0 results ∧
          out.result = lastWithIP4 results) ∨
        (∃ e, out.err = some e ∧ out.result = none ∧ results.length < c.confs.length ∧
          out.log = log0 ++ okAdds 0 results ++ [Event.add results.length (.error e)])) := by
  obtain ⟨out, results, hrun, hcases⟩ :=
    addLoop_range' env c c.confs.length 0 none w1 (by omega)
  rw [← List.range_eq_range'] at hrun
  refine ⟨{ out with log := log0 ++ out.log }, results, ?_, ?_⟩
  · simp [CNIAdd, h, hrun]
  · rcases hcases with ⟨he, hlen, hlog, hres⟩ | ⟨e, he, hres, hlen, hlog⟩
    · refine Or.inl ⟨he, hlen, by simp [hlog], ?_⟩
      rw [hres]; cases lastWithIP4 results <;> rfl
    · exact Or.inr ⟨e, he, hres, hlen, by simp [hlog]⟩

theorem CNIDel_run {σ : Type} (env : Env σ) (state : DockerPluginState) (w w1 : σ)
    (c : CNIExec) (log0 : List Event) (h : NewCNIExec env state w = (.ok c, w1, log0)) :
    ∃ out outcomes, CNIDel env state w = some out ∧ outcomes.length = c.confs.length ∧
      out.log = log0 ++ dels c.confs.length outcomes ∧
      out.err = (delErrors out.log).getLast? := by
  obtain ⟨out, outcomes, hrun, hlen, hlog, herr⟩ :=
    delLoop_run env c c.confs.length none w1 (le_refl _)
  refine ⟨{ out with log := log0 ++ out.log }, outcomes, ?_, hlen, by simp [hlog], ?_⟩
  · simp [CNIDel, h, hrun]
  · have hno := NewCNIExec_log env state w
    rw [h] at hno
    have h0 := (noCalls_indices log0 hno).2.2
    simp only [delErrors_append, h0, List.nil_append, herr]
    cases (delErrors out.log).getLast? <;> rfl

theorem delErrors_eq_nil (l : List Event) :
    delErrors l = [] ↔ ∀ i o, Event.del i o ∈ l → o = none := by
  induction l with
  | nil => simp [delErrors]
  | cons ev evs ih =>
    cases ev with
    | del j o' =>
      cases o' with
      | none =>
        simp only [delErrors, ih, List.mem_cons]
        constructor
        · intro hh i o hmem
          rcases hmem with heq | hmem
          · cases heq; rfl
          · exact hh i o hmem
        · intro hh i o hmem
          exact hh i o (Or.inr hmem)
      | some e =>
        simp only [delErrors, List.mem_cons]
        constructor
        · intro hh; cases hh
        · intro hh
          have := hh j (some e) (Or.inl rfl)
          cases this
    | _ =>
      simp only [delErrors, ih, List.mem_cons]
      constructor
      · intro hh i o hmem
        rcases hmem with heq | hmem
        · cases heq
        · exact hh i o hmem
      · intro hh i o hmem
        exact hh i o (Or.inr hmem)

/-- C1: for every chain that `NewCNIExec` builds, `CNIAdd` returns (no panic) and its
log is the load log followed by successful `Add` invocations on the indices
`0, 1, ...` in ascending order and then either nothing more (every plugin
succeeded, all indices were invoked and the error is nil), or one failing `Add` on
the next index as the very last event, in which case that plugin's error is returned
with a nil result. No `Del` is ever invoked. The indices follow the sorted file
names: outside the no-plugin modes the chain is the list of configurations loaded
from the sorted directory listing. -/
theorem CNIAdd_stops_at_first_failure {σ : Type} (env : Env σ) (state : DockerPluginState)
    (w w1 : σ) (c : CNIExec) (log0 : List Event)
    (h : NewCNIExec env state w = (.ok c, w1, log0)) :
    ∃ out results, CNIAdd env state w = some out ∧
      ((out.err = none ∧ results.length = c.confs.length ∧
          out.log = log0 ++ okAdds 0 results) ∨
        (∃ e, out.err = some e ∧ out.result = none ∧ results.length < c.confs.length ∧
          out.log = log0 ++ okAdds 0 results ++ [Event.add results.length (.error e)])) ∧
      addIndices out.log = List.range (addIndices out.log).length ∧
      (addIndices out.log).length ≤ c.confs.length ∧
      delIndices out.log = [] ∧
      (skipsPlugins env state = false →
        ∃ files, env.ConfFiles w (networkDir env state) = .ok files ∧
          List.Forall₂ (fun file conf => env.ConfFromFile w1 file = .ok conf)
            (sortStrings files) c.confs ∧
          (sortStrings files).Sorted (fun a b => a.data ≤ b.data) ∧
          (sortStrings files).Perm files) := by
  obtain ⟨out, results, hrun, hcases⟩ := CNIAdd_run env state w w1 c log0 h
  have hno := NewCNIExec_log env state w
  rw [h] at hno
  obtain ⟨ha0, hd0, _⟩ := noCalls_indices log0 hno
  refine ⟨out, results, hrun, ?_, ?_, ?_, ?_, ?_⟩
  · rcases hcases with ⟨he, hlen, hlog, _⟩ | ⟨e, he, hres, hlen, hlog⟩
    · exact Or.inl ⟨he, hlen, hlog⟩
    · exact Or.inr ⟨e, he, hres, hlen, hlog⟩
  · rcases hcases with ⟨_, _, hlog, _⟩ | ⟨e, _, _, _, hlog⟩
    · simp [hlog, addIndices_append, ha0, addIndices_okAdds, List.range_eq_range']
    · simp [hlog, addIndices_append, ha0, addIndices_okAdds, addIndices, List.range_succ,
        List.range_eq_range']
  · rcases hcases with ⟨_, hlen, hlog, _⟩ | ⟨e, _, _, hlen, hlog⟩
    · simp [hlog, addIndices_append, ha0, addIndices_okAdds, hlen]
    · simp [hlog, addIndices_append, ha0, addIndices_okAdds, addIndices]
      omega
  · rcases hcases with ⟨_, _, hlog, _⟩ | ⟨e, _, _, _, hlog⟩
    · simp [hlog, delIndices_append, hd0, delIndices_okAdds]
    · simp [hlog, delIndices_append, hd0, delIndices_okAdds, delIndices]
  · intro hmode
    obtain ⟨files, hfiles, hall⟩ := NewCNIExec_chain env state w w1 c log0 h hmode
    exact ⟨files, hfiles, hall, sortStrings_sorted files⟩

/-- C1 (witness): three plugins, the add of the second fails. -/
theorem CNIAdd_stops_at_first_failure_witness :
    NewCNIExec addEnv (testState "net1") () = (.ok testChain, (), testLoadLog) ∧
    (CNIAdd addEnv (testState "net1") ()).map (fun out => (out.result, out.err, addIndices out.log))
      = some (none, some "add failed: 20-b.conf", [0, 1]) ∧
    ∃ out results, CNIAdd addEnv (testState "net1") () = some out ∧
      ((out.err = none ∧ results.length = testChain.confs.length ∧
          out.log = testLoadLog ++ okAdds 0 results) ∨
        (∃ e, out.err = some e ∧ out.result = none ∧ results.length < testChain.confs.length ∧
          out.log = testLoadLog ++ okAdds 0 results ++ [Event.add results.length (.error e)])) :=
  have h := CNIAdd_stops_at_first_failure addEnv (testState "net1") () () testChain testLoadLog rfl
  ⟨rfl, by decide, h.imp fun _ h1 => h1.imp fun _ h2 => ⟨h2.1, h2.2.1⟩⟩

/-- C2: for every chain of `n` configurations that `NewCNIExec` builds, `CNIDel`
returns (no panic) and its log is the load log followed by exactly `n` `Del`
invocations, on the indices `n - 1, ..., 0` in this order, whatever their outcomes.
This is the reverse of the order in which a `CNIAdd` without error invokes `Add` on
the same chain. Outside the no-plugin modes the chain is the list of configurations
loaded from the sorted directory listing, so the deletes run from the last file name
to the first. -/
theorem CNIDel_reverse_order {σ : Type} (env : Env σ) (state : DockerPluginState)
    (w w1 : σ) (c : CNIExec) (log0 : List Event)
    (h : NewCNIExec env state w = (.ok c, w1, log0)) :
    ∃ out outcomes, CNIDel env state w = some out ∧ outcomes.length = c.confs.length ∧
      out.log = log0 ++ dels c.confs.length outcomes ∧
      delIndices out.log = (List.range c.confs.length).reverse ∧
      addIndices out.log = [] ∧
      (∀ (wa wa1 : σ) (ca : CNIExec) (loga : List Event) (outa : AddOutcome σ),
        NewCNIExec env state wa = (.ok ca, wa1, loga) → ca.confs = c.confs →
        CNIAdd env state wa = some outa → outa.err = none →
        addIndices outa.log = List.range c.confs.length ∧
        delIndices out.log = (addIndices outa.log).reverse) ∧
      (skipsPlugins env state = false →
        ∃ files, env.ConfFiles w (networkDir env state) = .ok files ∧
          List.Forall₂ (fun file conf => env.ConfFromFile w1 file = .ok conf)
            (sortStrings files) c.confs ∧
          (sortStrings files).Sorted (fun a b => a.data ≤ b.data) ∧
          (sortStrings files).Perm files) := by
  obtain ⟨out, outcomes, hrun, hlen, hlog, _⟩ := CNIDel_run env state w w1 c log0 h
  have hno := NewCNIExec_log env state w
  rw [h] at hno
  obtain ⟨ha0, hd0, _⟩ := noCalls_indices log0 hno
  have hdel : delIndices out.log = (List.range c.confs.length).reverse := by
    rw [hlog, delIndices_append, hd0, List.nil_append, delIndices_dels _ _ hlen]
  refine ⟨out, outcomes, hrun, hlen, hlog, hdel, ?_, ?_, ?_⟩
  · rw [hlog, addIndices_append, ha0, addIndices_dels]; rfl
  · intro wa wa1 ca loga outa hca hconfs hadd herr
    obtain ⟨outa', results, hrun', hcases⟩ := CNIAdd_run env state wa wa1 ca loga hca
    rw [hadd] at hrun'
    cases hrun'
    have hnoa := NewCNIExec_log env state wa
    rw [hca] at hnoa
    have haa := (noCalls_indices loga hnoa).1
    rcases hcases with ⟨_, hlen', hlog', _⟩ | ⟨e, he, _⟩
    · have : addIndices outa.log = List.range c.confs.length := by
        rw [hlog', addIndices_append, haa, List.nil_append, addIndices_okAdds, hlen', hconfs,
          List.range_eq_range']
      exact ⟨this, by rw [hdel, this]⟩
    · rw [herr] at he; cases he
  · intro hmode
    obtain ⟨files, hfiles, hall⟩ := NewCNIExec_chain env state w w1 c log0 h hmode
    exact ⟨files, hfiles, hall, sortStrings_sorted files⟩

/-- C2 (witness): the directory lists `20-b.conf`, `30-c.conf`, `10-a.conf`; the
chain is in sorted order and the deletes run on the indices 2, 1, 0. -/
theorem CNIDel_reverse_order_witness :
    NewCNIExec delEnv (testState "net1") () = (.ok testChain, (), testLoadLog) ∧
    testChain.confs.map (fun conf => conf.Name) = ["10-a.conf", "20-b.conf", "30-c.conf"] ∧
    ∃ out outcomes, CNIDel delEnv (testState "net1") () = some out ∧
      outcomes.length = testChain.confs.length ∧
      out.log = testLoadLog ++ dels testChain.confs.length outcomes ∧
      delIndices out.log = (List.range testChain.confs.length).reverse :=
  have h := CNIDel_reverse_order delEnv (testState "net1") () () testChain testLoadLog rfl
  ⟨rfl, by decide, h.imp fun _ h1 => h1.imp fun _ h2 => ⟨h2.1, h2.2.1, h2.2.2.1, h2.2.2.2.1⟩⟩

/-- C3: for every chain that `NewCNIExec` builds, `CNIDel` returns (no panic) the
error of the last failing `Del` in invocation order, and nil exactly when every `Del`
invocation succeeded; every index of the chain is invoked. -/
theorem CNIDel_returns_last_error {σ : Type} (env : Env σ) (state : DockerPluginState)
    (w w1 : σ) (c : CNIExec) (log0 : List Event)
    (h : NewCNIExec env state w = (.ok c, w1, log0)) :
    ∃ out, CNIDel env state w = some out ∧
      out.err = (delErrors out.log).getLast? ∧
      (out.err = none ↔ ∀ i o, Event.del i o ∈ out.log → o = none) ∧
      delIndices out.log = (List.range c.confs.length).reverse := by
  obtain ⟨out, outcomes, hrun, hlen, hlog, herr⟩ := CNIDel_run env state w w1 c log0 h
  have hno := NewCNIExec_log env state w
  rw [h] at hno
  obtain ⟨_, hd0, _⟩ := noCalls_indices log0 hno
  refine ⟨out, hrun, herr, ?_, ?_⟩
  · rw [herr, ← delErrors_eq_nil]
    constructor
    · intro hl
      cases hd : delErrors out.log with
      | nil => rfl
      | cons e es =>
        rw [hd] at hl
        have := List.getLast?_eq_none_iff.mp hl
        cases this
    · intro hnil
      rw [hnil]
      rfl
  · rw [hlog, delIndices_append, hd0, List.nil_append, delIndices_dels _ _ hlen]

/-- C3 (witness): three plugins; the first delete invoked (index 2) and the third
(index 0) fail, the second succeeds: all three are invoked and the error returned
is the one of the third. -/
theorem CNIDel_returns_last_error_witness :
    NewCNIExec delEnv (testState "net1") () = (.ok testChain, (), testLoadLog) ∧
    (CNIDel delEnv (testState "net1") ()).map
        (fun out => (out.err, delIndices out.log, delErrors out.log))
      = some (some "del failed: 10-a.conf", [2, 1, 0],
          ["del failed: 30-c.conf", "del failed: 10-a.conf"]) ∧
    ∃ out, CNIDel delEnv (testState "net1") () = some out ∧
      out.err = (delErrors out.log).getLast? ∧
      (out.err = none ↔ ∀ i o, Event.del i o ∈ out.log → o = none) ∧
      delIndices out.log = (List.range testChain.confs.length).reverse :=
  ⟨rfl, by decide,
    CNIDel_returns_last_error delEnv (testState "net1") () () testChain testLoadLog rfl⟩

/-- C8: for every chain that `NewCNIExec` builds, `CNIAdd` returns (no panic), and
when it returns a nil error every plugin of the chain was invoked once, in index
order, each with a successful result, and the returned result is the last of these
results, in index order, whose `IP4` is non-nil; it is nil when no result has a
non-nil `IP4`, in particular for an empty chain. -/
theorem CNIAdd_returns_last_result_with_address {σ : Type} (env : Env σ)
    (state : DockerPluginState) (w w1 : σ) (c : CNIExec) (log0 : List Event)
    (h : NewCNIExec env state w = (.ok c, w1, log0)) :
    ∃ out, CNIAdd env state w = some out ∧
      (out.err = none →
        ∃ results, results.length = c.confs.length ∧ out.log = log0 ++ okAdds 0 results ∧
          out.result = lastWithIP4 results ∧
          ((∀ r ∈ results, r.IP4 = none) → out.result = none) ∧
          (c.confs = [] → out.result = none)) := by
  obtain ⟨out, results, hrun, hcases⟩ := CNIAdd_run env state w w1 c log0 h
  refine ⟨out, hrun, ?_⟩
  intro herr
  rcases hcases with ⟨_, hlen, hlog, hres⟩ | ⟨e, he, _⟩
  · refine ⟨results, hlen, hlog, hres, ?_, ?_⟩
    · intro hall
      rw [hres]
      unfold lastWithIP4
      have : List.filter (fun r : Result => r.IP4.isSome) results = [] := by
        rw [List.filter_eq_nil_iff]
        intro r hr
        simp [hall r hr]
      rw [this]
      rfl
    · intro hempty
      rw [hempty] at hlen
      have : results = [] := List.length_eq_zero.mp hlen
      rw [hres, this]
      rfl
  · rw [herr] at he; cases he

/-- C8 (witness): three plugins that all succeed; the second reports an address,
the third none: the result of the second is returned. -/
theorem CNIAdd_returns_last_result_with_address_witness :
    NewCNIExec delEnv (testState "net1") () = (.ok testChain, (), testLoadLog) ∧
    (CNIAdd delEnv (testState "net1") ()).map (fun out => (out.result, out.err, addIndices out.log))
      = some (some ⟨some ⟨"10.0.0.2", "10.0.0.1"⟩, none⟩, none, [0, 1, 2]) ∧
    ∃ out, CNIAdd delEnv (testState "net1") () = some out ∧
      (out.err = none →
        ∃ results, results.length = testChain.confs.length ∧
          out.log = testLoadLog ++ okAdds 0 results ∧ out.result = lastWithIP4 results) :=
  have h := CNIAdd_returns_last_result_with_address delEnv (testState "net1") () () testChain
    testLoadLog rfl
  ⟨rfl, by decide,
    h.imp fun _ h1 => ⟨h1.1, fun he => (h1.2 he).imp fun _ h2 => ⟨h2.1, h2.2.1, h2.2.2.1⟩⟩⟩

/-- C9: when the network mode is container-shared, host or none, `NewCNIExec` returns
the empty executor with no error, the world untouched and an empty log (no label
lookup, no directory listing, no file load); `CNIAdd` then returns a nil result and a
nil error and `CNIDel` returns nil, both with an empty log: no plugin is invoked. -/
theorem no_plugin_modes_invoke_nothing {σ : Type} (env : Env σ) (state : DockerPluginState)
    (w : σ)
    (h : env.IsContainer state.HostConfig.NetworkMode = true ∨
      env.IsHost state.HostConfig.NetworkMode = true ∨
      env.IsNone state.HostConfig.NetworkMode = true) :
    NewCNIExec env state w = (.ok CNIExec.zero, w, []) ∧
    CNIExec.zero.confs = [] ∧
    CNIAdd env state w = some ⟨none, none, w, []⟩ ∧
    CNIDel env state w = some ⟨none, w, []⟩ := by
  have hskip : skipsPlugins env state = true := by
    unfold skipsPlugins
    rcases h with h | h | h <;> simp [h]
  have hnew := NewCNIExec_skip env state w hskip
  refine ⟨hnew, rfl, ?_, ?_⟩
  · simp [CNIAdd, hnew, CNIExec.zero, addLoop]
  · simp [CNIDel, hnew, CNIExec.zero, delLoop]

/-- C9 (witness): a container that shares the network of another container. -/
theorem no_plugin_modes_invoke_nothing_witness :
    NewCNIExec addEnv (testState "container:abc") () = (.ok CNIExec.zero, (), []) ∧
    CNIExec.zero.confs = [] ∧
    CNIAdd addEnv (testState "container:abc") () = some ⟨none, none, (), []⟩ ∧
    CNIDel addEnv (testState "container:abc") () = some ⟨none, (), []⟩ :=
  no_plugin_modes_invoke_nothing addEnv (testState "container:abc") () (Or.inl (by decide))

end glue

/-! ## The configuration watcher -/

namespace cniconf

theorem writeFiles_spec {σ : Type} (env : Env σ) (confDir : String)
    (files : List (String × Value)) :
    ∀ (lastErr : Option Error) (s : σ),
      ((writeFiles env confDir files lastErr s).1.isSome =
          (lastErr.isSome || (writeFiles env confDir files lastErr s).2.2.any Step.failed)) ∧
        ∀ st ∈ (writeFiles env confDir files lastErr s).2.2, st.isLinkStep = false := by
  induction files with
  | nil => intro lastErr s; simp [writeFiles]
  | cons f rest ih =>
    intro lastErr s
    obtain ⟨file, config⟩ := f
    simp only [writeFiles]
    cases hm : env.Marshal config with
    | error e =>
      obtain ⟨h1, h2⟩ := ih (some e) s
      simp only [List.any_cons, List.mem_cons, forall_eq_or_imp]
      refine ⟨?_, rfl, h2⟩
      rw [h1]; simp [Step.failed]
    | ok content =>
      simp only
      cases hi : env.Indent content "" "  " with
      | error e =>
        obtain ⟨h1, h2⟩ := ih (some e) s
        simp only [List.any_cons, List.mem_cons, forall_eq_or_imp]
        refine ⟨?_, rfl, rfl, h2⟩
        rw [h1]; simp [Step.failed]
      | ok out =>
        obtain ⟨h1, h2⟩ := ih
          (if (env.WriteFile s (env.Join confDir file) out 0o600).1.isSome then
            (env.WriteFile s (env.Join confDir file) out 0o600).1 else lastErr)
          (env.WriteFile s (env.Join confDir file) out 0o600).2
        simp only [List.any_cons, List.mem_cons, forall_eq_or_imp]
        refine ⟨?_, rfl, rfl, rfl, h2⟩
        rw [h1]
        cases (env.WriteFile s (env.Join confDir file) out 0o600).1 <;>
          simp [Step.failed]

theorem relinkManaged_spec {σ : Type} (env : Env σ) (network : Network) (confDir : String)
    (lastErr : Option Error) (s : σ) :
    (relinkManaged env network confDir lastErr s).1.isSome =
      (lastErr.isSome || (relinkManaged env network confDir lastErr s).2.2.any Step.failed) := by
  unfold relinkManaged
  simp only
  split
  · cases (env.Symlink _ (network.Name ++ ".d") (Sprintf cniDir "managed")).1 <;>
      simp [Step.failed]
  · simp [Step.failed]

theorem apply_err_iff {σ : Type} (env : Env σ) (w : watcher) (network : Network) (s : σ) :
    (apply env w network s).err.isSome = (apply env w network s).steps.any Step.failed := by
  unfold apply
  simp only
  split
  · simp [Step.failed]
  · rename_i hmk
    have hwf := (writeFiles_spec env (Sprintf cniDir network.Name)
      ((cniConfigOf network).getD Fields.nil).toList none
      (env.MkdirAll s (Sprintf cniDir network.Name) 0o700).2).1
    split
    · rename_i hrl
      simp only [Option.isSome_none, List.any_cons, Step.failed, Bool.false_or, List.any_append]
      cases hd : network.Default
      · simp only [hd, Bool.false_eq_true, if_false] at hrl ⊢
        rw [hrl] at hwf
        simpa using hwf
      · simp only [hd, if_true] at hrl ⊢
        have hr := relinkManaged_spec env network (Sprintf cniDir network.Name)
          (writeFiles env (Sprintf cniDir network.Name)
            ((cniConfigOf network).getD Fields.nil).toList none
            (env.MkdirAll s (Sprintf cniDir network.Name) 0o700).2).1
          (writeFiles env (Sprintf cniDir network.Name)
            ((cniConfigOf network).getD Fields.nil).toList none
            (env.MkdirAll s (Sprintf cniDir network.Name) 0o700).2).2.1
        rw [hrl, hwf] at hr
        simpa using hr
    · rename_i e hrl
      simp only [Option.isSome_some, List.any_cons, Step.failed, Bool.false_or, List.any_append]
      cases hd : network.Default
      · simp only [hd, Bool.false_eq_true, if_false] at hrl ⊢
        rw [hrl] at hwf
        simpa using hwf
      · simp only [hd, if_true] at hrl ⊢
        have hr := relinkManaged_spec env network (Sprintf cniDir network.Name)
          (writeFiles env (Sprintf cniDir network.Name)
            ((cniConfigOf network).getD Fields.nil).toList none
            (env.MkdirAll s (Sprintf cniDir network.Name) 0o700).2).1
          (writeFiles env (Sprintf cniDir network.Name)
            ((cniConfigOf network).getD Fields.nil).toList none
            (env.MkdirAll s (Sprintf cniDir network.Name) 0o700).2).2.1
        rw [hrl, hwf] at hr
        simpa using hr

theorem apply_ok {σ : Type} (env : Env σ) (w : watcher) (network : Network) (s : σ)
    (h : (apply env w network s).err = none) :
    ∃ s', (apply env w network s).w =
        { applied := setApplied w.applied network.Name network, lastApplied := (env.Now s').1 } ∧
      (apply env w network s).world = (env.Now s').2 := by
  unfold apply at h ⊢
  simp only at h ⊢
  split
  · rename_i e hmk
    rw [hmk] at h
    simp at h
  · rename_i hmk
    rw [hmk] at h
    simp only at h
    split
    · exact ⟨_, rfl, rfl⟩
    · rename_i e hrl
      rw [hrl] at h
      simp at h

theorem apply_failed {σ : Type} (env : Env σ) (w : watcher) (network : Network) (s : σ)
    (h : (apply env w network s).err ≠ none) : (apply env w network s).w = w := by
  unfold apply at h ⊢
  simp only at h ⊢
  split
  · rfl
  · rename_i hmk
    rw [hmk] at h
    simp only at h
    split
    · rename_i hrl
      rw [hrl] at h
      simp at h
    · rfl

theorem cniConfigOf_zero : cniConfigOf Network.zero = none := rfl

theorem lookup_ne_iff (w : watcher) (n : Network) (h : (cniConfigOf n).isSome = true) :
    w.lookup n.Name ≠ n ↔ w.applied n.Name ≠ some n := by
  unfold watcher.lookup
  cases hc : w.applied n.Name with
  | none =>
    simp only [Option.getD_none, ne_eq, not_false_eq_true, iff_true, reduceCtorEq]
    intro hz
    rw [← hz, cniConfigOf_zero] at h
    simp at h
  | some v => simp

theorem processNetworks_cons {σ : Type} (env : Env σ) (host : Host) (force : Bool)
    (n : Network) (rest : List Network) (w : watcher) (s : σ) :
    processNetworks env host force (n :: rest) w s =
      if shouldApply host force w n = true then
        { processNetworks env host force rest (apply env w n s).w (apply env w n s).world with
          applies := ⟨n, (apply env w n s).err, (apply env w n s).steps⟩ ::
            (processNetworks env host force rest (apply env w n s).w
              (apply env w n s).world).applies }
      else processNetworks env host force rest w s := by
  rw [processNetworks]
  by_cases henv : n.EnvironmentUUID = host.EnvironmentUUID
  · cases hc : cniConfigOf n with
    | none => simp [shouldApply, henv, hc]
    | some fields =>
      have hsome : (cniConfigOf n).isSome = true := by rw [hc]; rfl
      have hiff := lookup_ne_iff w n hsome
      by_cases hne : w.applied n.Name ≠ some n
      · have hl := hiff.mpr hne
        simp [shouldApply, henv, hc, hne, hl]
      · have hl : ¬ w.lookup n.Name ≠ n := fun h => hne (hiff.mp h)
        simp only [ne_eq, Decidable.not_not] at hne hl
        cases force <;> simp [shouldApply, henv, hc, hne, hl]
  · simp [shouldApply, henv]

theorem processNetworks_append {σ : Type} (env : Env σ) (host : Host) (force : Bool)
    (l₁ l₂ : List Network) :
    ∀ (w : watcher) (s : σ),
      processNetworks env host force (l₁ ++ l₂) w s =
        { processNetworks env host force l₂ (processNetworks env host force l₁ w s).w
            (processNetworks env host force l₁ w s).world with
          applies := (processNetworks env host force l₁ w s).applies ++
            (processNetworks env host force l₂ (processNetworks env host force l₁ w s).w
              (processNetworks env host force l₁ w s).world).applies } := by
  induction l₁ with
  | nil => intro w s; simp [processNetworks]
  | cons n rest ih =>
    intro w s
    rw [List.cons_append, processNetworks_cons, processNetworks_cons]
    by_cases h : shouldApply host force w n = true
    · simp only [h, if_true]
      rw [ih]
      simp
    · simp only [h, Bool.false_eq_true, if_false]
      rw [ih]

theorem processNetworks_applies {σ : Type} (env : Env σ) (host : Host) (force : Bool)
    (l : List Network) :
    ∀ (w : watcher) (s : σ), ∀ r ∈ (processNetworks env host force l w s).applies,
      r.network ∈ l ∧ eligible host r.network = true := by
  induction l with
  | nil => intro w s r hr; simp [processNetworks] at hr
  | cons n rest ih =>
    intro w s r hr
    rw [processNetworks_cons] at hr
    by_cases h : shouldApply host force w n = true
    · simp only [h, if_true, List.mem_cons] at hr
      rcases hr with rfl | hr
      · refine ⟨List.mem_cons_self _ _, ?_⟩
        have h' : (eligible host n && (force || decide (w.applied n.Name ≠ some n))) = true := h
        rw [Bool.and_eq_true] at h'
        exact h'.1
      · obtain ⟨hm, he⟩ := ih _ _ r hr
        exact ⟨List.mem_cons_of_mem _ hm, he⟩
    · simp only [h, Bool.false_eq_true, if_false] at hr
      obtain ⟨hm, he⟩ := ih _ _ r hr
      exact ⟨List.mem_cons_of_mem _ hm, he⟩

theorem onChange_eq {σ : Type} (env : Env σ) (w : watcher) (s : σ)
    (networks : List Network) (host : Host)
    (hnets : (env.GetNetworks s).1 = .ok networks)
    (hhost : (env.GetSelfHost (env.GetNetworks s).2).1 = .ok host) :
    onChange env w s =
      ⟨none,
        (processNetworks env host
          (forceApply (env.Now (env.GetSelfHost (env.GetNetworks s).2).2).1 w) networks w
          (env.Now (env.GetSelfHost (env.GetNetworks s).2).2).2).w,
        (processNetworks env host
          (forceApply (env.Now (env.GetSelfHost (env.GetNetworks s).2).2).1 w) networks w
          (env.Now (env.GetSelfHost (env.GetNetworks s).2).2).2).world,
        (processNetworks env host
          (forceApply (env.Now (env.GetSelfHost (env.GetNetworks s).2).2).1 w) networks w
          (env.Now (env.GetSelfHost (env.GetNetworks s).2).2).2).applies⟩ := by
  unfold onChange
  simp only [hnets, hhost]

theorem shouldApply_eq (host : Host) (force : Bool) (w : watcher) (n : Network) :
    shouldApply host force w n =
      (eligible host n && (force || decide (w.applied n.Name ≠ some n))) := rfl

theorem processNetworks_keeps_ne {σ : Type} (env : Env σ) (host : Host) (force : Bool)
    (n : Network) (l : List Network) :
    ∀ (w : watcher) (s : σ), w.applied n.Name ≠ some n →
      (∀ r ∈ (processNetworks env host force l w s).applies, r.network = n → r.err ≠ none) →
      (processNetworks env host force l w s).w.applied n.Name ≠ some n := by
  induction l with
  | nil => intro w s hne _; simpa [processNetworks] using hne
  | cons m rest ih =>
    intro w s hne hfail
    rw [processNetworks_cons] at hfail ⊢
    by_cases h : shouldApply host force w m = true
    · simp only [h, if_true, List.mem_cons, forall_eq_or_imp] at hfail ⊢
      obtain ⟨hm, hrest⟩ := hfail
      refine ih _ _ ?_ hrest
      cases herr : (apply env w m s).err with
      | some e => rw [apply_failed env w m s (by rw [herr]; simp)]; exact hne
      | none =>
        obtain ⟨s', hw, _⟩ := apply_ok env w m s herr
        have hmn : m ≠ n := fun hmn => hm hmn herr
        rw [hw]
        simp only [setApplied]
        split
        · intro hcon
          exact hmn (Option.some.inj hcon)
        · exact hne
    · simp only [h, Bool.false_eq_true, if_false] at hfail ⊢
      exact ih _ _ hne hfail

theorem processNetworks_reaches {σ : Type} (env : Env σ) (host : Host) (force : Bool)
    (n : Network) (helig : eligible host n = true) (l : List Network) :
    ∀ (w : watcher) (s : σ), n ∈ l → (force = true ∨ w.applied n.Name ≠ some n) →
      ∃ r ∈ (processNetworks env host force l w s).applies, r.network = n := by
  induction l with
  | nil => intro w s hmem; simp at hmem
  | cons m rest ih =>
    intro w s hmem hcond
    rw [processNetworks_cons]
    by_cases hmn : m = n
    · subst hmn
      have h : shouldApply host force w m = true := by
        rw [shouldApply_eq, helig]
        simpa using hcond
      simp only [h, if_true]
      exact ⟨_, List.mem_cons_self _ _, rfl⟩
    · have hrest : n ∈ rest := by
        rcases List.mem_cons.mp hmem with h | h
        · exact absurd h.symm hmn
        · exact h
      by_cases h : shouldApply host force w m = true
      · simp only [h, if_true]
        have hcond' : force = true ∨ (apply env w m s).w.applied n.Name ≠ some n := by
          rcases hcond with hf | hne
          · exact Or.inl hf
          · right
            cases herr : (apply env w m s).err with
            | some e => rw [apply_failed env w m s (by rw [herr]; simp)]; exact hne
            | none =>
              obtain ⟨s', hw, _⟩ := apply_ok env w m s herr
              rw [hw]
              simp only [setApplied]
              split
              · intro hcon
                exact hmn (Option.some.inj hcon)
              · exact hne
        obtain ⟨r, hr, hrn⟩ := ih _ _ hrest hcond'
        exact ⟨r, List.mem_cons_of_mem _ hr, hrn⟩
      · simp only [h, Bool.false_eq_true, if_false]
        exact ih _ _ hrest hcond

theorem processNetworks_keeps_entry {σ : Type} (env : Env σ) (host : Host) (force : Bool)
    (n : Network) (l : List Network) :
    ∀ (w : watcher) (s : σ), w.applied n.Name = some n →
      (∀ m ∈ l, eligible host m = true → m.Name = n.Name → m = n) →
      (processNetworks env host force l w s).w.applied n.Name = some n := by
  induction l with
  | nil => intro w s h _; simpa [processNetworks] using h
  | cons m rest ih =>
    intro w s hw hnames
    rw [processNetworks_cons]
    have hrest : ∀ m ∈ rest, eligible host m = true → m.Name = n.Name → m = n :=
      fun m' hm' => hnames m' (List.mem_cons_of_mem _ hm')
    by_cases h : shouldApply host force w m = true
    · simp only [h, if_true]
      refine ih _ _ ?_ hrest
      cases herr : (apply env w m s).err with
      | some e => rw [apply_failed env w m s (by rw [herr]; simp)]; exact hw
      | none =>
        obtain ⟨s', hw', _⟩ := apply_ok env w m s herr
        rw [hw']
        simp only [setApplied]
        split
        · rename_i hname
          have helig : eligible host m = true := by
            rw [shouldApply_eq, Bool.and_eq_true] at h
            exact h.1
          rw [hnames m (List.mem_cons_self _ _) helig hname.symm]
        · exact hw
    · simp only [h, Bool.false_eq_true, if_false]
      exact ih _ _ hw hrest

theorem processNetworks_caches {σ : Type} (env : Env σ) (host : Host) (force : Bool)
    (l : List Network) :
    ∀ (w : watcher) (s : σ),
      (∀ r ∈ (processNetworks env host force l w s).applies, r.err = none) →
      (∀ a ∈ l, ∀ b ∈ l, eligible host a = true → eligible host b = true →
        a.Name = b.Name → a = b) →
      ∀ n ∈ l, eligible host n = true →
        (processNetworks env host force l w s).w.applied n.Name = some n := by
  induction l with
  | nil => intro w s _ _ n hn; simp at hn
  | cons m rest ih =>
    intro w s hsucc hnames n hn helig
    have hnames' : ∀ a ∈ rest, ∀ b ∈ rest, eligible host a = true → eligible host b = true →
        a.Name = b.Name → a = b :=
      fun a ha b hb => hnames a (List.mem_cons_of_mem _ ha) b (List.mem_cons_of_mem _ hb)
    have hkeep : ∀ m' ∈ rest, eligible host m' = true → m'.Name = n.Name → m' = n :=
      fun m' hm' he hname => hnames m' (List.mem_cons_of_mem _ hm') n hn he helig hname
    rw [processNetworks_cons] at hsucc ⊢
    by_cases h : shouldApply host force w m = true
    · simp only [h, if_true, List.mem_cons, forall_eq_or_imp] at hsucc ⊢
      obtain ⟨herr, hsucc'⟩ := hsucc
      rcases List.mem_cons.mp hn with hnm | hnrest
      · subst hnm
        obtain ⟨s', hw', _⟩ := apply_ok env w n s herr
        refine processNetworks_keeps_entry env host force n rest _ _ ?_ hkeep
        rw [hw']
        simp [setApplied]
      · exact ih _ _ hsucc' hnames' n hnrest helig
    · simp only [h, Bool.false_eq_true, if_false] at hsucc ⊢
      rcases List.mem_cons.mp hn with hnm | hnrest
      · subst hnm
        refine processNetworks_keeps_entry env host force n rest _ _ ?_ hkeep
        rw [shouldApply_eq, helig] at h
        have h2 : force = false ∧ w.applied n.Name = some n := by simpa using h
        exact h2.2
      · exact ih _ _ hsucc hnames' n hnrest helig

theorem processNetworks_idle {σ : Type} (env : Env σ) (host : Host) (l : List Network) :
    ∀ (w : watcher) (s : σ),
      (∀ n ∈ l, eligible host n = true → w.applied n.Name = some n) →
      processNetworks env host false l w s = ⟨w, s, []⟩ := by
  induction l with
  | nil => intro w s _; rfl
  | cons m rest ih =>
    intro w s hall
    rw [processNetworks_cons]
    have h : shouldApply host false w m = false := by
      rw [shouldApply_eq]
      by_cases he : eligible host m = true
      · have := hall m (List.mem_cons_self _ _) he
        simp [this]
      · simp [he]
    simp only [h, Bool.false_eq_true, if_false]
    exact ih _ _ fun n hn => hall n (List.mem_cons_of_mem _ hn)

theorem relinkManaged_steps {σ : Type} (env : Env σ) (network : Network) (confDir : String)
    (lastErr : Option Error) (s : σ) :
    ((∃ m c, (env.Stat s (Sprintf cniDir "managed")).1 = .ok m ∧
        (env.Stat (env.Stat s (Sprintf cniDir "managed")).2 confDir).1 = .ok c ∧
        SameFile m c = true) →
      (relinkManaged env network confDir lastErr s).2.2 =
        [Step.stat (Sprintf cniDir "managed") true, Step.stat confDir true]) ∧
    ((¬ ∃ m c, (env.Stat s (Sprintf cniDir "managed")).1 = .ok m ∧
        (env.Stat (env.Stat s (Sprintf cniDir "managed")).2 confDir).1 = .ok c ∧
        SameFile m c = true) →
      ∃ rmErr lnErr, (relinkManaged env network confDir lastErr s).2.2 =
        [Step.stat (Sprintf cniDir "managed") (env.Stat s (Sprintf cniDir "managed")).1.toBool,
         Step.stat confDir
           (env.Stat (env.Stat s (Sprintf cniDir "managed")).2 confDir).1.toBool,
         Step.remove (Sprintf cniDir "managed") rmErr,
         Step.symlink (network.Name ++ ".d") (Sprintf cniDir "managed") lnErr]) := by
  unfold relinkManaged
  dsimp only
  generalize env.Stat s (Sprintf cniDir "managed") = mt
  generalize env.Stat mt.2 confDir = ct
  obtain ⟨mt1, mt2⟩ := mt
  obtain ⟨ct1, ct2⟩ := ct
  constructor
  · rintro ⟨m, c, hm, hc, hsame⟩
    simp only at hm hc
    subst hm hc
    simp [hsame, Except.toBool]
  · intro hne
    cases mt1 with
    | error e => exact ⟨_, _, by simp [Except.toBool]; exact ⟨rfl, rfl⟩⟩
    | ok m =>
      cases ct1 with
      | error e => exact ⟨_, _, by simp [Except.toBool]; exact ⟨rfl, rfl⟩⟩
      | ok c =>
        have hsame : SameFile m c = false := by
          by_contra hcon
          exact hne ⟨m, c, rfl, rfl, by simpa using hcon⟩
        exact ⟨_, _, by simp [hsame, Except.toBool]; exact ⟨rfl, rfl⟩⟩

theorem apply_steps {σ : Type} (env : Env σ) (w : watcher) (network : Network) (s : σ)
    (hmk : (env.MkdirAll s (Sprintf cniDir network.Name) 0o700).1 = none) :
    (apply env w network s).steps =
      Step.mkdirAll (Sprintf cniDir network.Name) 0o700 none ::
        ((writeFiles env (Sprintf cniDir network.Name)
            ((cniConfigOf network).getD Fields.nil).toList none
            (env.MkdirAll s (Sprintf cniDir network.Name) 0o700).2).2.2 ++
          (if network.Default then
            relinkManaged env network (Sprintf cniDir network.Name)
              (writeFiles env (Sprintf cniDir network.Name)
                ((cniConfigOf network).getD Fields.nil).toList none
                (env.MkdirAll s (Sprintf cniDir network.Name) 0o700).2).1
              (writeFiles env (Sprintf cniDir network.Name)
                ((cniConfigOf network).getD Fields.nil).toList none
                (env.MkdirAll s (Sprintf cniDir network.Name) 0o700).2).2.1
          else
            ((writeFiles env (Sprintf cniDir network.Name)
                ((cniConfigOf network).getD Fields.nil).toList none
                (env.MkdirAll s (Sprintf cniDir network.Name) 0o700).2).1,
              (writeFiles env (Sprintf cniDir network.Name)
                ((cniConfigOf network).getD Fields.nil).toList none
                (env.MkdirAll s (Sprintf cniDir network.Name) 0o700).2).2.1, [])).2.2) := by
  unfold apply
  simp only [hmk]
  split <;> rfl

/-- C10 (amended): the managed path is handled only by a default network whose
directory creation succeeded. For a network that is not default, `apply` performs
no stat, no removal and no symlink creation. When the directory creation fails,
`apply` performs nothing else. For a default network whose directory was created,
after the file steps `apply` stats the managed path and the network's directory, in
the world that the file steps left; if both stats succeed and report the same file,
nothing more is done; otherwise (a stat fails, or the files differ) it removes the
managed path and then creates the symlink with target `<network name>.d` at the
managed path. -/
theorem apply_managed_path {σ : Type} (env : Env σ) (w : watcher) (network : Network) (s : σ) :
    (network.Default = false →
      ∀ st ∈ (apply env w network s).steps, st.isLinkStep = false) ∧
    (∀ e, (env.MkdirAll s (Sprintf cniDir network.Name) 0o700).1 = some e →
      (apply env w network s).steps =
        [Step.mkdirAll (Sprintf cniDir network.Name) 0o700 (some e)]) ∧
    (network.Default = true →
      (env.MkdirAll s (Sprintf cniDir network.Name) 0o700).1 = none →
      (∀ st ∈ (fileStage env network s).2.2, st.isLinkStep = false) ∧
      ((∃ m c, (env.Stat (fileStage env network s).2.1 (Sprintf cniDir "managed")).1 = .ok m ∧
          (env.Stat (env.Stat (fileStage env network s).2.1 (Sprintf cniDir "managed")).2
            (Sprintf cniDir network.Name)).1 = .ok c ∧ SameFile m c = true) →
        (apply env w network s).steps =
          Step.mkdirAll (Sprintf cniDir network.Name) 0o700 none ::
            (fileStage env network s).2.2 ++
            [Step.stat (Sprintf cniDir "managed") true,
             Step.stat (Sprintf cniDir network.Name) true]) ∧
      ((¬ ∃ m c, (env.Stat (fileStage env network s).2.1 (Sprintf cniDir "managed")).1 = .ok m ∧
          (env.Stat (env.Stat (fileStage env network s).2.1 (Sprintf cniDir "managed")).2
            (Sprintf cniDir network.Name)).1 = .ok c ∧ SameFile m c = true) →
        ∃ rmErr lnErr, (apply env w network s).steps =
          Step.mkdirAll (Sprintf cniDir network.Name) 0o700 none ::
            (fileStage env network s).2.2 ++
            [Step.stat (Sprintf cniDir "managed")
               (env.Stat (fileStage env network s).2.1 (Sprintf cniDir "managed")).1.toBool,
             Step.stat (Sprintf cniDir network.Name)
               (env.Stat (env.Stat (fileStage env network s).2.1 (Sprintf cniDir "managed")).2
                 (Sprintf cniDir network.Name)).1.toBool,
             Step.remove (Sprintf cniDir "managed") rmErr,
             Step.symlink (network.Name ++ ".d") (Sprintf cniDir "managed") lnErr])) := by
  refine ⟨?_, ?_, ?_⟩
  · intro hd st hst
    cases hmk : (env.MkdirAll s (Sprintf cniDir network.Name) 0o700).1 with
    | some e =>
      have : (apply env w network s).steps =
          [Step.mkdirAll (Sprintf cniDir network.Name) 0o700 (some e)] := by
        unfold apply
        simp only [hmk]
      rw [this] at hst
      simp at hst
      subst hst
      rfl
    | none =>
      rw [apply_steps env w network s hmk] at hst
      simp only [hd, Bool.false_eq_true, if_false, List.append_nil, List.mem_cons] at hst
      rcases hst with rfl | hst
      · rfl
      · exact (writeFiles_spec env _ _ none _).2 st hst
  · intro e he
    unfold apply
    simp only [he]
  · intro hd hmk
    refine ⟨(writeFiles_spec env _ _ none _).2, ?_, ?_⟩
    · intro hsame
      rw [apply_steps env w network s hmk]
      simp only [hd, if_true]
      have := (relinkManaged_steps env network (Sprintf cniDir network.Name)
        (fileStage env network s).1 (fileStage env network s).2.1).1 hsame
      unfold fileStage at this ⊢
      rw [this]
      simp
    · intro hne
      rw [apply_steps env w network s hmk]
      simp only [hd, if_true]
      obtain ⟨rmErr, lnErr, h⟩ := (relinkManaged_steps env network (Sprintf cniDir network.Name)
        (fileStage env network s).1 (fileStage env network s).2.1).2 hne
      unfold fileStage at h ⊢
      exact ⟨rmErr, lnErr, by rw [h]; simp⟩

/-- C10 (counterexample): a default network while the managed path is missing, and
the creation of the network's directory fails: `apply` neither removes the managed
path nor creates the symlink. And a network that is not default but is named
`managed`: `apply` creates its directory at the managed path. -/
theorem apply_no_relink_when_mkdir_fails :
    ((testNetwork "net1" true).Default = true ∧
      (testFS.Stat ⟨0, [], testHost, ["/etc/cni/net1.d"], []⟩
        (Sprintf cniDir "managed")).1.toBool = false ∧
      ∀ st ∈ (apply testFS freshWatcher (testNetwork "net1" true)
          ⟨0, [], testHost, ["/etc/cni/net1.d"], []⟩).steps, st.isRelink = false) ∧
    ((testNetwork "managed" false).Default = false ∧
      Step.mkdirAll (Sprintf cniDir "managed") 0o700 none ∈
        (apply testFS freshWatcher (testNetwork "managed" false)
          ⟨0, [], testHost, [], []⟩).steps) := by
  decide

/-- C4: in a cycle whose two fetches succeed, `onChange` returns nil and, for every
position of the fetched list, the network `n` at that position is applied exactly
when `shouldApply` holds in the watcher state reached after the networks before it:
same environment as the host, a `cniConfig` entry of mapping type, and `forceApply`
or no equal snapshot cached under its name (an absent entry is never equal). The
invocations of the cycle are those of the networks before `n`, then the one of `n`
if it is applied, then those of the networks after `n`, which are processed from the
state that `apply` left whether it failed or not. Every applied network is of the
host's environment. -/
theorem onChange_applies_iff {σ : Type} (env : Env σ) (w : watcher) (s : σ)
    (networks : List Network) (host : Host)
    (hnets : (env.GetNetworks s).1 = .ok networks)
    (hhost : (env.GetSelfHost (env.GetNetworks s).2).1 = .ok host) :
    (onChange env w s).err = none ∧
    (∀ pre n post, networks = pre ++ n :: post →
      (shouldApply host (cycleForce env w s)
          (processNetworks env host (cycleForce env w s) pre w (loopStart env s)).w n = true →
        (onChange env w s).applies =
          (processNetworks env host (cycleForce env w s) pre w (loopStart env s)).applies ++
            ⟨n,
              (apply env
                (processNetworks env host (cycleForce env w s) pre w (loopStart env s)).w n
                (processNetworks env host (cycleForce env w s) pre w (loopStart env s)).world).err,
              (apply env
                (processNetworks env host (cycleForce env w s) pre w (loopStart env s)).w n
                (processNetworks env host (cycleForce env w s) pre w (loopStart env s)).world).steps⟩ ::
            (processNetworks env host (cycleForce env w s) post
              (apply env
                (processNetworks env host (cycleForce env w s) pre w (loopStart env s)).w n
                (processNetworks env host (cycleForce env w s) pre w (loopStart env s)).world).w
              (apply env
                (processNetworks env host (cycleForce env w s) pre w (loopStart env s)).w n
                (processNetworks env host (cycleForce env w s) pre w (loopStart env s)).world).world).applies) ∧
      (shouldApply host (cycleForce env w s)
          (processNetworks env host (cycleForce env w s) pre w (loopStart env s)).w n = false →
        (onChange env w s).applies =
          (processNetworks env host (cycleForce env w s) pre w (loopStart env s)).applies ++
            (processNetworks env host (cycleForce env w s) post
              (processNetworks env host (cycleForce env w s) pre w (loopStart env s)).w
              (processNetworks env host (cycleForce env w s) pre w (loopStart env s)).world).applies)) ∧
    (∀ r ∈ (onChange env w s).applies,
      r.network ∈ networks ∧ r.network.EnvironmentUUID = host.EnvironmentUUID ∧
        (cniConfigOf r.network).isSome = true) ∧
    (∀ (w' : watcher) (n : Network), (cniConfigOf n).isSome = true → w'.applied n.Name = none →
      w'.lookup n.Name ≠ n) := by
  have heq := onChange_eq env w s networks host hnets hhost
  refine ⟨by rw [heq], ?_, ?_, ?_⟩
  · intro pre n post hsplit
    subst hsplit
    have happ : (onChange env w s).applies =
        (processNetworks env host (cycleForce env w s) (pre ++ n :: post) w
          (loopStart env s)).applies := by rw [heq]; rfl
    rw [happ, processNetworks_append, processNetworks_cons]
    constructor
    · intro h
      simp only [h, if_true]
    · intro h
      simp only [h, Bool.false_eq_true, if_false]
  · intro r hr
    have happ : (onChange env w s).applies =
        (processNetworks env host (cycleForce env w s) networks w
          (loopStart env s)).applies := by rw [heq]; rfl
    rw [happ] at hr
    obtain ⟨hm, he⟩ := processNetworks_applies env host _ networks _ _ r hr
    simp only [eligible, Bool.and_eq_true, decide_eq_true_eq] at he
    exact ⟨hm, he.1, he.2⟩
  · intro w' n hc hnone
    rw [lookup_ne_iff w' n hc, hnone]
    simp

/-- C4 (witness): a fresh watcher, two networks of the host's environment. -/
theorem onChange_applies_iff_witness :
    (onChange testFS freshWatcher (testWorld (400 * second) [])).err = none ∧
    ∀ r ∈ (onChange testFS freshWatcher (testWorld (400 * second) [])).applies,
      r.network ∈ [testNetwork "net1" true, testNetwork "net2" false] ∧
      r.network.EnvironmentUUID = testHost.EnvironmentUUID ∧
      (cniConfigOf r.network).isSome = true :=
  have h := onChange_applies_iff testFS freshWatcher (testWorld (400 * second) [])
    [testNetwork "net1" true, testNetwork "net2" false] testHost rfl rfl
  ⟨h.1, h.2.2.1⟩

/-- C6 (amended): if the apply of a network fails in a cycle that started with no
equal snapshot cached under the network's name, and no apply of that network
succeeded in that cycle, then the next cycle that delivers the same network (same
environment as the host, `cniConfig` present) applies it again, whatever happened to
the other networks. -/
theorem failed_apply_is_retried {σ : Type} (env env' : Env σ) (w : watcher) (s s' : σ)
    (networks networks' : List Network) (host host' : Host) (n : Network)
    (hnets : (env.GetNetworks s).1 = .ok networks)
    (hhost : (env.GetSelfHost (env.GetNetworks s).2).1 = .ok host)
    (hnets' : (env'.GetNetworks s').1 = .ok networks')
    (hhost' : (env'.GetSelfHost (env'.GetNetworks s').2).1 = .ok host')
    (hdiff : w.applied n.Name ≠ some n)
    (_hfail : ∃ r ∈ (onChange env w s).applies, r.network = n ∧ r.err ≠ none)
    (hnone : ∀ r ∈ (onChange env w s).applies, r.network = n → r.err ≠ none)
    (hmem : n ∈ networks') (helig : eligible host' n = true) :
    ∃ r ∈ (onChange env' (onChange env w s).w s').applies, r.network = n := by
  have heq := onChange_eq env w s networks host hnets hhost
  have heq' := onChange_eq env' (onChange env w s).w s' networks' host' hnets' hhost'
  have hkeep : (onChange env w s).w.applied n.Name ≠ some n := by
    rw [heq] at hnone ⊢
    exact processNetworks_keeps_ne env host _ n networks w _ hdiff hnone
  rw [heq']
  exact processNetworks_reaches env' host' _ n helig networks' _ _ hmem (Or.inr hkeep)

/-- C7 (amended): if every apply that a cycle invoked succeeded, and the networks of
the list that the cycle considers (host's environment, `cniConfig` present) with
equal names are equal, then a second cycle that is delivered the same list and the
same host while `forceApply` is false invokes apply on no network, hence performs no
file operation, and leaves the watcher as it was. -/
theorem second_cycle_applies_nothing {σ : Type} (env env' : Env σ) (w : watcher) (s s' : σ)
    (networks : List Network) (host : Host)
    (hnets : (env.GetNetworks s).1 = .ok networks)
    (hhost : (env.GetSelfHost (env.GetNetworks s).2).1 = .ok host)
    (hnets' : (env'.GetNetworks s').1 = .ok networks)
    (hhost' : (env'.GetSelfHost (env'.GetNetworks s').2).1 = .ok host)
    (hsucc : ∀ r ∈ (onChange env w s).applies, r.err = none)
    (hnames : ∀ a ∈ networks, ∀ b ∈ networks, eligible host a = true →
      eligible host b = true → a.Name = b.Name → a = b)
    (hforce : cycleForce env' (onChange env w s).w s' = false) :
    (onChange env' (onChange env w s).w s').applies = [] ∧
    (onChange env' (onChange env w s).w s').err = none ∧
    (onChange env' (onChange env w s).w s').w = (onChange env w s).w := by
  have heq := onChange_eq env w s networks host hnets hhost
  have heq' := onChange_eq env' (onChange env w s).w s' networks host hnets' hhost'
  have hcached : ∀ n ∈ networks, eligible host n = true →
      (onChange env w s).w.applied n.Name = some n := by
    rw [heq] at hsucc ⊢
    exact processNetworks_caches env host _ networks w _ hsucc hnames
  have hforce' : forceApply (env'.Now (env'.GetSelfHost (env'.GetNetworks s').2).2).1
      (onChange env w s).w = false := hforce
  rw [heq', hforce', processNetworks_idle env' host networks _ _ hcached]
  exact ⟨rfl, rfl, rfl⟩

/-- C6 (counterexample): both networks are cached; in a forced cycle the apply of
`net1` fails while the apply of `net2` succeeds and refreshes the last-applied time;
the next cycle delivers `net1` again (same environment, `cniConfig` present) and
does not apply it. -/
theorem failed_forced_apply_not_retried :
    (∃ r ∈ forcedCycle.applies, r.network = testNetwork "net1" true ∧ r.err ≠ none) ∧
    testNetwork "net1" true ∈ forcedCycle.world.networks ∧
    eligible testHost (testNetwork "net1" true) = true ∧
    ∀ r ∈ afterForcedCycle.applies, r.network ≠ testNetwork "net1" true := by
  decide

/-- C7 (counterexample): the apply of `net1` fails in a cycle; the next cycle is
delivered the identical snapshots while `forceApply` is false, and it invokes apply
on `net1` again, which performs a file operation. -/
theorem repeated_cycle_applies_after_failure :
    failingCycle.world.networks = net1Appears.networks ∧
    cycleForce testFS failingCycle.w { failingCycle.world with clock := 402 * second } = false ∧
    repeatedCycle.applies.map (fun r => r.network) = [testNetwork "net1" true] ∧
    ∃ r ∈ repeatedCycle.applies, r.steps ≠ [] := by
  decide

/-- C6 (witness): `net1` appears, its apply fails, the next cycle applies it again. -/
theorem failed_apply_is_retried_witness :
    (∃ r ∈ failingCycle.applies, r.network = testNetwork "net1" true ∧ r.err ≠ none) ∧
    ∃ r ∈ repeatedCycle.applies, r.network = testNetwork "net1" true :=
  ⟨by decide,
    failed_apply_is_retried testFS testFS onlyNet2.w net1Appears
      { failingCycle.world with clock := 402 * second }
      [testNetwork "net2" false, testNetwork "net1" true]
      [testNetwork "net2" false, testNetwork "net1" true] testHost testHost
      (testNetwork "net1" true) rfl rfl rfl rfl (by decide) (by decide) (by decide)
      (by decide) (by decide)⟩

/-- C7 (witness): both networks are applied, the cycle one second later applies
nothing. -/
theorem second_cycle_applies_nothing_witness :
    (∀ r ∈ bothApplied.applies, r.err = none) ∧
    (onChange testFS bothApplied.w { bothApplied.world with clock := 401 * second }).applies
      = [] :=
  ⟨by decide,
    (second_cycle_applies_nothing testFS testFS freshWatcher (testWorld (400 * second) [])
      { bothApplied.world with clock := 401 * second }
      [testNetwork "net1" true, testNetwork "net2" false] testHost rfl rfl rfl rfl
      (by decide) (by decide) (by decide)).1⟩

theorem writeFiles_trace {σ : Type} (env : Env σ) (confDir : String)
    (files : List (String × Value)) :
    ∀ (lastErr : Option Error) (s : σ),
      (writeFiles env confDir files lastErr s).2.2 = stepsOfFiles env confDir files s ∧
      (writeFiles env confDir files lastErr s).2.1 = afterFiles env confDir files s := by
  induction files with
  | nil => intro lastErr s; exact ⟨rfl, rfl⟩
  | cons f rest ih =>
    intro lastErr s
    obtain ⟨file, config⟩ := f
    simp only [writeFiles, stepsOfFiles, afterFiles, stepsOfFile, afterFile]
    cases hm : env.Marshal config with
    | error e =>
      obtain ⟨h1, h2⟩ := ih (some e) s
      simp only [h1, h2, List.singleton_append, and_self]
    | ok content =>
      simp only
      cases hi : env.Indent content "" "  " with
      | error e =>
        obtain ⟨h1, h2⟩ := ih (some e) s
        simp only [h1, h2, List.cons_append, List.nil_append, and_self]
      | ok out =>
        obtain ⟨h1, h2⟩ := ih
          (if (env.WriteFile s (env.Join confDir file) out 0o600).1.isSome then
            (env.WriteFile s (env.Join confDir file) out 0o600).1 else lastErr)
          (env.WriteFile s (env.Join confDir file) out 0o600).2
        simp only [h1, h2, List.cons_append, List.nil_append, and_self]

theorem relinkManaged_trace {σ : Type} (env : Env σ) (network : Network) (confDir : String)
    (lastErr : Option Error) (s : σ) :
    (relinkManaged env network confDir lastErr s).2.2 = stepsOfLink env network confDir s ∧
    (relinkManaged env network confDir lastErr s).2.1 = afterLink env network confDir s := by
  unfold relinkManaged stepsOfLink afterLink sameDirectory afterStats
  dsimp only
  split <;> rename_i h
  · simp only [Bool.not_eq_true', Bool.not_eq_eq_eq_not, Bool.not_true] at h
    simp [h]
  · simp only [Bool.not_eq_true', Bool.not_eq_false] at h
    simp [h]

theorem stepsOfFiles_append {σ : Type} (env : Env σ) (confDir : String)
    (pre post : List (String × Value)) :
    ∀ s : σ, stepsOfFiles env confDir (pre ++ post) s =
      stepsOfFiles env confDir pre s ++
        stepsOfFiles env confDir post (afterFiles env confDir pre s) := by
  induction pre with
  | nil => intro s; rfl
  | cons e rest ih =>
    intro s
    show stepsOfFile env confDir e s ++
        stepsOfFiles env confDir (rest ++ post) (afterFile env confDir e s) =
      stepsOfFiles env confDir (e :: rest) s ++
        stepsOfFiles env confDir post (afterFiles env confDir (e :: rest) s)
    rw [ih]
    simp only [stepsOfFiles, afterFiles, List.append_assoc]

theorem apply_trace {σ : Type} (env : Env σ) (w : watcher) (network : Network) (s : σ) :
    (apply env w network s).steps = expectedSteps env network s ∧
    ((apply env w network s).err = none →
      (apply env w network s).w.lastApplied = (env.Now (afterSteps env network s)).1 ∧
      (apply env w network s).world = (env.Now (afterSteps env network s)).2) ∧
    ((apply env w network s).err ≠ none →
      (apply env w network s).world = afterSteps env network s) := by
  unfold apply expectedSteps afterSteps cniConfEntries
  dsimp only
  cases hmk : (env.MkdirAll s (Sprintf cniDir network.Name) 0o700).1 with
  | some e => simp
  | none =>
    have hwf := writeFiles_trace env (Sprintf cniDir network.Name)
      ((cniConfigOf network).getD Fields.nil).toList none
      (env.MkdirAll s (Sprintf cniDir network.Name) 0o700).2
    simp only [Option.isSome_none, Bool.false_eq_true, if_false]
    cases hd : network.Default with
    | false =>
      simp only [Bool.false_eq_true, if_false, List.append_nil]
      split <;> simp [hwf.1, hwf.2]
    | true =>
      have hrl := relinkManaged_trace env network (Sprintf cniDir network.Name)
        (writeFiles env (Sprintf cniDir network.Name)
          ((cniConfigOf network).getD Fields.nil).toList none
          (env.MkdirAll s (Sprintf cniDir network.Name) 0o700).2).1
        (writeFiles env (Sprintf cniDir network.Name)
          ((cniConfigOf network).getD Fields.nil).toList none
          (env.MkdirAll s (Sprintf cniDir network.Name) 0o700).2).2.1
      rw [hwf.2] at hrl
      simp only [if_true]
      split <;> simp [hwf.1, hwf.2, hrl.1, hrl.2]

/-- C5: the steps that `apply` performs are exactly the prescribed ones with the
outcomes the environment gives: the creation of the network's directory and, when
that succeeded, for every `cniConfig` entry its marshal, indent and write (in the
world reached after the entries before it) and, for a default network whose managed
path is not the same directory, the removal and the symlink creation. `apply`
commits exactly when none of these steps failed: if the directory creation, every
entry's serialization and write and the symlink creation all succeeded, the returned
error is nil, the cache maps the network's name to the network and is otherwise the
old map, and the last-applied time is the clock reading taken after the last step;
if one of them failed, the returned error is non-nil and the watcher (cache map and
last-applied time) is exactly the old one. In every case the cache entries of other
names are unchanged. -/
theorem apply_commits_iff_all_steps_succeed {σ : Type} (env : Env σ) (w : watcher)
    (network : Network) (s : σ) :
    (apply env w network s).steps = expectedSteps env network s ∧
    Step.mkdirAll (Sprintf cniDir network.Name) 0o700
        (env.MkdirAll s (Sprintf cniDir network.Name) 0o700).1 ∈
      (apply env w network s).steps ∧
    ((env.MkdirAll s (Sprintf cniDir network.Name) 0o700).1 = none →
      (∀ pre entry post, cniConfEntries network = pre ++ entry :: post →
        ∀ st ∈ stepsOfFile env (Sprintf cniDir network.Name) entry
            (afterFiles env (Sprintf cniDir network.Name) pre
              (env.MkdirAll s (Sprintf cniDir network.Name) 0o700).2),
          st ∈ (apply env w network s).steps) ∧
      (network.Default = true →
        sameDirectory env (Sprintf cniDir network.Name)
          (afterFiles env (Sprintf cniDir network.Name) (cniConfEntries network)
            (env.MkdirAll s (Sprintf cniDir network.Name) 0o700).2) = false →
        Step.symlink (network.Name ++ ".d") (Sprintf cniDir "managed")
            (env.Symlink
              (env.Remove
                (afterStats env (Sprintf cniDir network.Name)
                  (afterFiles env (Sprintf cniDir network.Name) (cniConfEntries network)
                    (env.MkdirAll s (Sprintf cniDir network.Name) 0o700).2))
                (Sprintf cniDir "managed")).2
              (network.Name ++ ".d") (Sprintf cniDir "managed")).1 ∈
          (apply env w network s).steps)) ∧
    ((∀ st ∈ expectedSteps env network s, st.failed = false) →
      (apply env w network s).err = none ∧
      (apply env w network s).w.applied = setApplied w.applied network.Name network ∧
      (apply env w network s).w.applied network.Name = some network ∧
      (apply env w network s).w.lastApplied = (env.Now (afterSteps env network s)).1 ∧
      (apply env w network s).world = (env.Now (afterSteps env network s)).2) ∧
    ((∃ st ∈ expectedSteps env network s, st.failed = true) →
      (apply env w network s).err ≠ none ∧ (apply env w network s).w = w ∧
      (apply env w network s).world = afterSteps env network s) ∧
    (∀ name, name ≠ network.Name →
      (apply env w network s).w.applied name = w.applied name) := by
  obtain ⟨htrace, hokw, hfailw⟩ := apply_trace env w network s
  have hiff := apply_err_iff env w network s
  rw [htrace] at hiff
  refine ⟨htrace, ?_, ?_, ?_, ?_, ?_⟩
  · rw [htrace]
    unfold expectedSteps
    exact List.mem_cons_self _ _
  · intro hmk
    have hsteps : expectedSteps env network s =
        Step.mkdirAll (Sprintf cniDir network.Name) 0o700 none ::
          (stepsOfFiles env (Sprintf cniDir network.Name) (cniConfEntries network)
              (env.MkdirAll s (Sprintf cniDir network.Name) 0o700).2 ++
            if network.Default then
              stepsOfLink env network (Sprintf cniDir network.Name)
                (afterFiles env (Sprintf cniDir network.Name) (cniConfEntries network)
                  (env.MkdirAll s (Sprintf cniDir network.Name) 0o700).2)
            else []) := by
      unfold expectedSteps
      simp [hmk]
    constructor
    · intro pre entry post hsplit st hst
      rw [htrace, hsteps, hsplit, stepsOfFiles_append]
      simp only [stepsOfFiles, List.mem_cons, List.mem_append]
      exact Or.inr (Or.inl (Or.inr (Or.inl hst)))
    · intro hd hsame
      rw [htrace, hsteps]
      simp only [hd, if_true, stepsOfLink, hsame, Bool.false_eq_true, if_false]
      simp
  · intro hall
    have herr : (apply env w network s).err = none := by
      have : (expectedSteps env network s).any Step.failed = false := by
        rw [List.any_eq_false]
        intro st hst
        simp [hall st hst]
      rw [this] at hiff
      cases h : (apply env w network s).err with
      | none => rfl
      | some e => rw [h] at hiff; simp at hiff
    obtain ⟨s', hw, _⟩ := apply_ok env w network s herr
    obtain ⟨hla, hwo⟩ := hokw herr
    refine ⟨herr, by rw [hw], by rw [hw]; simp [setApplied], hla, hwo⟩
  · rintro ⟨st, hst, hfail⟩
    have herr : (apply env w network s).err ≠ none := by
      have : (expectedSteps env network s).any Step.failed = true :=
        List.any_eq_true.mpr ⟨st, hst, hfail⟩
      rw [this] at hiff
      intro h
      rw [h] at hiff
      simp at hiff
    exact ⟨herr, apply_failed env w network s herr, hfailw herr⟩
  · intro name hname
    cases herr : (apply env w network s).err with
    | none =>
      obtain ⟨s', hw, _⟩ := apply_ok env w network s herr
      rw [hw]
      simp [setApplied, hname]
    | some e =>
      rw [apply_failed env w network s (by rw [herr]; simp)]

/-- C5 (witness): with the test double, the apply of `net1` commits when every step
succeeds, and leaves the watcher as it was when the write of its file fails. -/
theorem apply_commits_iff_all_steps_succeed_witness :
    ((∀ st ∈ expectedSteps testFS (testNetwork "net1" true) (testWorld 0 []),
        st.failed = false) ∧
      (apply testFS freshWatcher (testNetwork "net1" true) (testWorld 0 [])).err = none ∧
      (apply testFS freshWatcher (testNetwork "net1" true) (testWorld 0 [])).w.applied "net1"
        = some (testNetwork "net1" true)) ∧
    ((∃ st ∈ expectedSteps testFS (testNetwork "net1" true)
          (testWorld 0 ["/etc/cni/net1.d/10-bridge.conf"]), st.failed = true) ∧
      (apply testFS freshWatcher (testNetwork "net1" true)
          (testWorld 0 ["/etc/cni/net1.d/10-bridge.conf"])).err ≠ none ∧
      (apply testFS freshWatcher (testNetwork "net1" true)
          (testWorld 0 ["/etc/cni/net1.d/10-bridge.conf"])).w = freshWatcher) :=
  have hok := (apply_commits_iff_all_steps_succeed testFS freshWatcher
    (testNetwork "net1" true) (testWorld 0 [])).2.2.2.1 (by decide)
  have hbad := (apply_commits_iff_all_steps_succeed testFS freshWatcher
    (testNetwork "net1" true) (testWorld 0 ["/etc/cni/net1.d/10-bridge.conf"])).2.2.2.2.1
    (by decide)
  ⟨⟨by decide, hok.1, hok.2.2.1⟩, ⟨by decide, hbad.1, hbad.2.1⟩⟩

end cniconf
